import Mathlib

/-!
# Verification of the tracker finance-app import/dedup core

Shallow embedding of the deduplication and parsing core of the
`Dmitry-Simon/tracker` repository (`src/finance-app/src/db.py` and
`src/finance-app/src/parsers.py`), together with proofs settling the
frozen claims about it.

Modelling conventions:
* Python `float` amounts are modelled as exact rationals (`ℚ`); the
  claims under scrutiny only involve values and comparisons that are
  exact in both models.
* Python strings are Lean `String`s; `str.lower()/strip()` and the
  regex `\s+` are modelled over the ASCII whitespace/letter ranges,
  which covers every string the code and claims manipulate.
* Fallible or missing dictionary entries are `Option` values; Python
  truthiness of a string option (`if ref_id:`) is `pyTruthy`.
* `None`-able dictionary reads (`tx.get(k)`) are `Option` fields.
-/
set_option maxRecDepth 8000

/-! ## Python string primitives (db.py / parsers.py helpers) -/
/-- ASCII whitespace as matched by Python `str.strip` / regex `\s`
(space, tab, newline, carriage return, vertical tab, form feed). -/
def pyIsSpace (c : Char) : Bool :=
  c = ' ' || c = '\t' || c = '\n' || c = '\r' || c = '\x0b' || c = '\x0c'

/-- ASCII lowercasing, as `str.lower()` acts on the A–Z range. -/
def pyLowerChar (c : Char) : Char :=
  if 'A' ≤ c && c ≤ 'Z' then Char.ofNat (c.toNat + 32) else c

/-- Embeds `str.strip()`: drop leading and trailing whitespace. -/
def pyStripList (l : List Char) : List Char :=
  ((l.dropWhile pyIsSpace).reverse.dropWhile pyIsSpace).reverse

/-- Embeds `str.strip()` on a `String`. -/
def pyStrip (s : String) : String :=
  String.mk (pyStripList s.data)

/-- Embeds `re.sub(r'\s+', ' ', s)`: replace each maximal whitespace run by a
single space.  The flag records whether the previous character was part
of a run already replaced. -/
def collapseWsAux : Bool → List Char → List Char
  | _, [] => []
  | prevSpace, c :: cs =>
    if pyIsSpace c then
      if prevSpace then collapseWsAux true cs
      else ' ' :: collapseWsAux true cs
    else c :: collapseWsAux false cs

/-- Embeds `db.normalize_description`: lowercase, strip, collapse internal
whitespace runs to single spaces (db.py lines 33–38). -/
def normalize_description (s : String) : String :=
  String.mk (collapseWsAux false (pyStripList (s.data.map pyLowerChar)))

/-! ## Python `f"{x:.2f}"` formatting over exact rationals -/
/-- Round `a / b` (with `b > 0`) to the nearest natural number, ties to
even — the rounding Python applies when formatting an exactly
representable value with `:.2f`. -/
def rheNonneg (a b : ℕ) : ℕ :=
  let n := a / b
  let r := a % b
  if b < 2 * r then n + 1
  else if 2 * r < b then n
  else if n % 2 = 0 then n else n + 1

/-- Left-pad the decimal digits of `n` with `'0'` to two characters. -/
def pad2 (n : ℕ) : String :=
  (if n < 10 then "0" else "") ++ toString n

/-- Python `f"{x:.2f}"`: sign, then the absolute value rounded to two
decimal places (ties to even).  The sign is taken from the value itself
so that small negatives format as `-0.00`, as in Python. -/
def formatAmount2 (q : ℚ) : String :=
  let qa := if q < 0 then -q else q
  let cents := rheNonneg (qa.num.toNat * 100) qa.den
  (if q < 0 then "-" else "") ++ toString (cents / 100) ++ "." ++ pad2 (cents % 100)

/-! ## SHA-256 (hashlib.sha256(...).hexdigest())

A direct executable implementation over `ℕ` with explicit `% 2^32`
reductions.  Bytes are `ℕ` values below 256. -/
/-- UTF-8 encoding of one character (`str.encode('utf-8')`). -/
def utf8Char (c : Char) : List ℕ :=
  let n := c.toNat
  if n < 0x80 then [n]
  else if n < 0x800 then
    [0xC0 ||| (n >>> 6), 0x80 ||| (n &&& 0x3F)]
  else if n < 0x10000 then
    [0xE0 ||| (n >>> 12), 0x80 ||| ((n >>> 6) &&& 0x3F), 0x80 ||| (n &&& 0x3F)]
  else
    [0xF0 ||| (n >>> 18), 0x80 ||| ((n >>> 12) &&& 0x3F),
     0x80 ||| ((n >>> 6) &&& 0x3F), 0x80 ||| (n &&& 0x3F)]

/-- UTF-8 bytes of a string. -/
def utf8Bytes (s : String) : List ℕ :=
  s.data.foldr (fun c acc => utf8Char c ++ acc) []

/-- Rotate a 32-bit word right by n bits. -/
def rotr32 (n x : ℕ) : ℕ :=
  ((x >>> n) ||| (x <<< (32 - n))) % 4294967296

def sha256K : List ℕ :=
  [1116352408, 1899447441, 3049323471, 3921009573, 961987163, 1508970993,
   2453635748, 2870763221, 3624381080, 310598401, 607225278, 1426881987,
   1925078388, 2162078206, 2614888103, 3248222580, 3835390401, 4022224774,
   264347078, 604807628, 770255983, 1249150122, 1555081692, 1996064986,
   2554220882, 2821834349, 2952996808, 3210313671, 3336571891, 3584528711,
   113926993, 338241895, 666307205, 773529912, 1294757372, 1396182291,
   1695183700, 1986661051, 2177026350, 2456956037, 2730485921, 2820302411,
   3259730800, 3345764771, 3516065817, 3600352804, 4094571909, 275423344,
   430227734, 506948616, 659060556, 883997877, 958139571, 1322822218,
   1537002063, 1747873779, 1955562222, 2024104815, 2227730452, 2361852424,
   2428436474, 2756734187, 3204031479, 3329325298]

def sha256H0 : List ℕ :=
  [1779033703, 3144134277, 1013904242, 2773480762,
   1359893119, 2600822924, 528734635, 1541459225]

def shaCh (x y z : ℕ) : ℕ := (x &&& y) ^^^ ((x ^^^ 0xffffffff) &&& z)

def shaMaj (x y z : ℕ) : ℕ := (x &&& y) ^^^ (x &&& z) ^^^ (y &&& z)

def shaBigSigma0 (x : ℕ) : ℕ := rotr32 2 x ^^^ rotr32 13 x ^^^ rotr32 22 x

def shaBigSigma1 (x : ℕ) : ℕ := rotr32 6 x ^^^ rotr32 11 x ^^^ rotr32 25 x

def shaSmallSigma0 (x : ℕ) : ℕ := rotr32 7 x ^^^ rotr32 18 x ^^^ (x >>> 3)

def shaSmallSigma1 (x : ℕ) : ℕ := rotr32 17 x ^^^ rotr32 19 x ^^^ (x >>> 10)

/-- Split a list into chunks of `n` elements (`fuel` bounds recursion;
callers pass `fuel = l.length`, which always suffices for `n > 0`). -/
def chunksOf (n : ℕ) : ℕ → List α → List (List α)
  | _, [] => []
  | 0, l => [l]
  | fuel + 1, l => l.take n :: chunksOf n fuel (l.drop n)

/-- Big-endian 8-byte encoding of a length (in bits). -/
def lenBytes64 (n : ℕ) : List ℕ :=
  [(n >>> 56) % 256, (n >>> 48) % 256, (n >>> 40) % 256, (n >>> 32) % 256,
   (n >>> 24) % 256, (n >>> 16) % 256, (n >>> 8) % 256, n % 256]

/-- SHA-256 padding: append `0x80`, zeros to 56 mod 64, then the
64-bit big-endian bit length. -/
def sha256Pad (m : List ℕ) : List ℕ :=
  let L := m.length
  let k := (120 - ((L + 1) % 64)) % 64
  m ++ [0x80] ++ List.replicate k 0 ++ lenBytes64 (8 * L)

/-- Big-endian 32-bit words from groups of 4 bytes. -/
def wordsOfBytes : List ℕ → List ℕ
  | b0 :: b1 :: b2 :: b3 :: rest =>
    (b0 <<< 24 ||| b1 <<< 16 ||| b2 <<< 8 ||| b3) :: wordsOfBytes rest
  | _ => []

/-- Extend a 16-word block to the 64-word message schedule. -/
def extendSchedule : List ℕ → ℕ → List ℕ
  | w, 0 => w
  | w, fuel + 1 =>
    let n := w.length
    let wt := (shaSmallSigma1 (w.getD (n - 2) 0) + w.getD (n - 7) 0 +
               shaSmallSigma0 (w.getD (n - 15) 0) + w.getD (n - 16) 0) % 4294967296
    extendSchedule (w ++ [wt]) fuel

/-- One compression round. -/
def sha256Round (st : List ℕ) (kw : ℕ × ℕ) : List ℕ :=
  match st with
  | [a, b, c, d, e, f, g, h] =>
    let t1 := (h + shaBigSigma1 e + shaCh e f g + kw.1 + kw.2) % 4294967296
    let t2 := (shaBigSigma0 a + shaMaj a b c) % 4294967296
    [(t1 + t2) % 4294967296, a, b, c, (d + t1) % 4294967296, e, f, g]
  | _ => st

/-- Compress one 512-bit block into the running hash state. -/
def sha256Block (h : List ℕ) (block : List ℕ) : List ℕ :=
  let w := extendSchedule (wordsOfBytes block) 48
  let st := (sha256K.zip w).foldl sha256Round h
  (h.zip st).map (fun p => (p.1 + p.2) % 4294967296)

/-- SHA-256 of a byte list, as eight 32-bit words. -/
def sha256Words (m : List ℕ) : List ℕ :=
  let padded := sha256Pad m
  (chunksOf 64 padded.length padded).foldl sha256Block sha256H0

def hexDigit (n : ℕ) : Char :=
  if n < 10 then Char.ofNat (48 + n) else Char.ofNat (87 + n)

/-- Lowercase hexadecimal rendering of a 32-bit word. -/
def hexWord8 (w : ℕ) : List Char :=
  [hexDigit ((w >>> 28) % 16), hexDigit ((w >>> 24) % 16),
   hexDigit ((w >>> 20) % 16), hexDigit ((w >>> 16) % 16),
   hexDigit ((w >>> 12) % 16), hexDigit ((w >>> 8) % 16),
   hexDigit ((w >>> 4) % 16), hexDigit (w % 16)]

/-- Embeds `hashlib.sha256(s.encode('utf-8')).hexdigest()`. -/
def sha256Hex (s : String) : String :=
  String.mk ((sha256Words (utf8Bytes s)).foldr (fun w acc => hexWord8 w ++ acc) [])

/-- The string handed to SHA-256 by `db.generate_hash_id` (db.py lines
40–55): `date_amount_desc` with the normalized description and
2-decimal signed amount, plus `_ref` only when `ref_id` is truthy
(Python `if ref_id:` — `None` and `""` both fall to the short form). -/
def rawHashString (date_iso : String) (amount : ℚ) (description : String)
    (ref_id : Option String) : String :=
  let amount_str := formatAmount2 amount
  let normalized_desc := normalize_description description
  let base := date_iso ++ "_" ++ amount_str ++ "_" ++ normalized_desc
  match ref_id with
  | some r => if r = "" then base else base ++ "_" ++ r
  | none => base

/-- Embeds `db.generate_hash_id` (db.py lines 40–55). -/
def generate_hash_id (date_iso : String) (amount : ℚ) (description : String)
    (ref_id : Option String) : String :=
  sha256Hex (rawHashString date_iso amount description ref_id)

/-! ## difflib.SequenceMatcher.ratio()

Executable embedding of CPython's `difflib` Ratcliff–Obershelp
similarity, as used by `calculate_duplicate_confidence`
(`SequenceMatcher(None, desc1, desc2).ratio()`): `b2j` indexing with
the autojunk rule (popular elements of `b` are junked when
`len(b) >= 200`), the longest-match dynamic program with its four
extension loops, and the recursive block decomposition.  Only the total
number of matched characters is needed for `ratio`, so
`matchTotal` sums block sizes directly (the queue order used by
`get_matching_blocks` does not affect the sum). -/
/-- Number of occurrences of `c` in `b` (`b.count(elt)`). -/
def countCh (b : List Char) (c : Char) : ℕ :=
  (b.filter (fun x => x = c)).length

/-- The autojunk rule of `SequenceMatcher.__chain_b` with
`isjunk = None`: for `len(b) >= 200`, elements occurring more than
`len(b) // 100 + 1` times are junk. -/
def isPopularChar (b : List Char) (c : Char) : Bool :=
  200 ≤ b.length && b.length / 100 + 1 < countCh b c

/-- Embeds `b2j[c]`: ascending positions of `c` in `b`, with junked elements
removed entirely. -/
def b2jList (b : List Char) (c : Char) : List ℕ :=
  if isPopularChar b c then []
  else (List.range b.length).filter (fun j => b.getD j default = c)

/-- Inner loop of `find_longest_match` for one `i`: walk the positions
`j` of `a[i]` inside `[blo, bhi)`, building the new `j2len` row and
updating the running best `(besti, bestj, bestsize)` whenever a longer
diagonal run appears.  `j2len.get(j-1, 0)` returns 0 for `j = 0`
(key `-1` is absent in Python). -/
def fimRow (i : ℕ) (old : List (ℕ × ℕ)) :
    List ℕ → List (ℕ × ℕ) → ℕ × ℕ × ℕ → List (ℕ × ℕ) × (ℕ × ℕ × ℕ)
  | [], new, best => (new, best)
  | j :: js, new, best =>
    let prev := if j = 0 then 0 else (((old.find? (fun p => p.1 = j - 1)).map Prod.snd).getD 0)
    let k := prev + 1
    let best' := if best.2.2 < k then (i + 1 - k, j + 1 - k, k) else best
    fimRow i old js ((j, k) :: new) best'

/-- Outer loop of `find_longest_match` over `i ∈ [alo, ahi)`. -/
def fimCols (a b : List Char) (blo bhi : ℕ) :
    List ℕ → List (ℕ × ℕ) → ℕ × ℕ × ℕ → ℕ × ℕ × ℕ
  | [], _, best => best
  | i :: is, j2len, best =>
    let js := (b2jList b (a.getD i default)).filter (fun j => blo ≤ j && j < bhi)
    let (new, best') := fimRow i j2len js [] best
    fimCols a b blo bhi is new best'

/-- Leftward extension loop (`while besti > alo and bestj > blo and
isbjunk(b[bestj-1]) == junkFlag and a[besti-1] == b[bestj-1]`). -/
def fimExtLeft (junkFlag : Bool) (a b : List Char) (alo blo : ℕ) :
    ℕ → ℕ × ℕ × ℕ → ℕ × ℕ × ℕ
  | 0, best => best
  | fuel + 1, (bi, bj, bs) =>
    if alo < bi && blo < bj && isPopularChar b (b.getD (bj - 1) default) = junkFlag
        && a.getD (bi - 1) default = b.getD (bj - 1) default then
      fimExtLeft junkFlag a b alo blo fuel (bi - 1, bj - 1, bs + 1)
    else (bi, bj, bs)

/-- Rightward extension loop. -/
def fimExtRight (junkFlag : Bool) (a b : List Char) (ahi bhi : ℕ) :
    ℕ → ℕ × ℕ × ℕ → ℕ × ℕ × ℕ
  | 0, best => best
  | fuel + 1, (bi, bj, bs) =>
    if bi + bs < ahi && bj + bs < bhi
        && isPopularChar b (b.getD (bj + bs) default) = junkFlag
        && a.getD (bi + bs) default = b.getD (bj + bs) default then
      fimExtRight junkFlag a b ahi bhi fuel (bi, bj, bs + 1)
    else (bi, bj, bs)

/-- Embeds `SequenceMatcher.find_longest_match(alo, ahi, blo, bhi)`. -/
def findLongestMatch (a b : List Char) (alo ahi blo bhi : ℕ) : ℕ × ℕ × ℕ :=
  let best := fimCols a b blo bhi (List.range' alo (ahi - alo)) [] (alo, blo, 0)
  let best := fimExtLeft false a b alo blo best.1 best
  let best := fimExtRight false a b ahi bhi ahi best
  let best := fimExtLeft true a b alo blo best.1 best
  fimExtRight true a b ahi bhi ahi best

/-- Total size of all matching blocks on `[alo, ahi) × [blo, bhi)`
(the sum produced by `get_matching_blocks`).  The fuel dominates the
recursion depth; callers pass `len(a) + len(b) + 1`, which always
suffices because each recursive range is strictly smaller. -/
def matchTotal (a b : List Char) : ℕ → ℕ → ℕ → ℕ → ℕ → ℕ
  | 0, _, _, _, _ => 0
  | fuel + 1, alo, ahi, blo, bhi =>
    let r := findLongestMatch a b alo ahi blo bhi
    let i := r.1
    let j := r.2.1
    let k := r.2.2
    if k = 0 then 0
    else k + matchTotal a b fuel alo i blo j + matchTotal a b fuel (i + k) ahi (j + k) bhi

/-- Embeds `difflib.SequenceMatcher(None, s1, s2).ratio()`; `_calculate_ratio`
returns 1.0 when both strings are empty. -/
def seqRatio (s1 s2 : String) : ℚ :=
  let a := s1.data
  let b := s2.data
  let total := a.length + b.length
  if total = 0 then 1
  else (2 * (matchTotal a b (total + 1) 0 a.length 0 b.length) : ℚ) / total

/-! ## Transactions and duplicate confidence (db.py lines 365–595) -/
/-- Python truthiness of an optional string (`None` and `""` are
falsy). -/
def pyTruthy : Option String → Bool
  | some s => s ≠ ""
  | none => false

/-- A stored/candidate transaction dictionary, restricted to the keys
the duplicate-detection code reads.  Plain-`String` fields carry the
`.get(key, '')`-style default for a missing key; `Option` fields are
read with a `None` default. -/
structure Tx where
  id : String
  date : Option String
  amount : ℚ
  description : String
  source_file : String
  category : String
  spender : Option String
  not_duplicate_of : List String
  deriving DecidableEq

/-- Embeds `abs` on the exact rational model of a float. -/
def qabs (q : ℚ) : ℚ := if q < 0 then -q else q

/-- Truncation `int(q)` for nonnegative `q`. -/
def ratTruncNat (q : ℚ) : ℕ := q.num.toNat / q.den

def bank_sources : List String := ["OneZero_Table", "OneZero_Excel"]

def cc_sources : List String := ["Isracard", "Max_Card", "Isracard_PDF_Fixed"]

/-- Embeds `db.is_bank_cc_overlap` (db.py lines 534–561), with the
`if/elif` fall-through translated branch by branch. -/
def is_bank_cc_overlap (tx1 tx2 : Tx) : Option String :=
  let src1 := tx1.source_file
  let src2 := tx2.source_file
  if bank_sources.contains src1 && cc_sources.contains src2
      && tx1.category = "Credit Card Payoff" then
    some "bank↔cc overlap"
  else if !(bank_sources.contains src1 && cc_sources.contains src2)
      && bank_sources.contains src2 && cc_sources.contains src1
      && tx2.category = "Credit Card Payoff" then
    some "bank↔cc overlap"
  else if bank_sources.contains src1 && bank_sources.contains src2 && src1 ≠ src2 then
    some "multi-format"
  else if cc_sources.contains src1 && cc_sources.contains src2 && src1 ≠ src2 then
    some "multi-format"
  else none

/-- Embeds `db.calculate_duplicate_confidence` (db.py lines 484–531):
additive score capped at 1.0, plus the audit reason string. -/
def calculate_duplicate_confidence (tx1 tx2 : Tx) : ℚ × String :=
  let p1 : ℚ × List String :=
    if tx1.date = tx2.date then (3/10, ["same date"]) else (0, [])
  let amt1 := qabs tx1.amount
  let amt2 := qabs tx2.amount
  let p2 : ℚ × List String :=
    if amt1 = amt2 then (35/100, ["exact amount"])
    else if 0 < amt1 && qabs (amt1 - amt2) / amt1 < 5/100 then (25/100, ["amount ~5%"])
    else (0, [])
  let desc_sim := seqRatio (normalize_description tx1.description)
    (normalize_description tx2.description)
  let pct := toString (ratTruncNat (desc_sim * 100))
  let p3 : ℚ × List String :=
    if 4/5 < desc_sim then (25/100, ["desc " ++ pct ++ "%"])
    else if 3/5 < desc_sim then (15/100, ["desc " ++ pct ++ "%"])
    else (0, [])
  let p4 : ℚ × List String :=
    match is_bank_cc_overlap tx1 tx2 with
    | some overlap_type => (1/5, [overlap_type])
    | none => (0, [])
  let p5 : ℚ × List String :=
    if tx1.spender = tx2.spender && pyTruthy tx1.spender then (1/20, ["same owner"])
    else (0, [])
  let score := p1.1 + p2.1 + p3.1 + p4.1 + p5.1
  (min score 1, String.intercalate "; " (p1.2 ++ p2.2 ++ p3.2 ++ p4.2 ++ p5.2))

/-! ## Full-database duplicate scan (db.py lines 365–440) -/
/-- One flagged group of suspected duplicates. -/
structure DupGroup where
  transactions : List Tx
  confidence : ℚ
  reason : String
  deriving DecidableEq

/-- The `(tx.get('date'), abs(tx.get('amount', 0)))` grouping key. -/
def txKey (t : Tx) : Option String × ℚ := (t.date, qabs t.amount)

/-- Append `t` to its key's bucket, creating the bucket at the end on
first sight (Python dict insertion order). -/
def insertGrouped (g : List ((Option String × ℚ) × List Tx)) (t : Tx) :
    List ((Option String × ℚ) × List Tx) :=
  match g with
  | [] => [(txKey t, [t])]
  | (k, txs) :: rest =>
    if k = txKey t then (k, txs ++ [t]) :: rest
    else (k, txs) :: insertGrouped rest t

/-- Embeds `grouped`: all transactions bucketed by `(date, abs(amount))`. -/
def buildGrouped (l : List Tx) : List ((Option String × ℚ) × List Tx) :=
  l.foldl insertGrouped []

/-- The explicit-ignore test (`tx2['_id'] in tx1.get('not_duplicate_of',
[]) or tx1['_id'] in tx2.get('not_duplicate_of', [])`). -/
def markedPair (t u : Tx) : Bool :=
  t.not_duplicate_of.contains u.id || u.not_duplicate_of.contains t.id

/-- Merge a qualifying pair into an existing group: append each member
not yet present, and raise the group's confidence/reason if this pair
scored higher. -/
def updateGroup (t u : Tx) (conf : ℚ) (reason : String) (pg : DupGroup) : DupGroup :=
  let txs1 := if pg.transactions.contains t then pg.transactions else pg.transactions ++ [t]
  let txs2 := if txs1.contains u then txs1 else txs1 ++ [u]
  if pg.confidence < conf then ⟨txs2, conf, reason⟩ else ⟨txs2, pg.confidence, pg.reason⟩

/-- Place a qualifying pair: the first existing group containing either
member absorbs the pair; otherwise a fresh two-element group is
appended. -/
def insertPair (t u : Tx) (conf : ℚ) (reason : String) : List DupGroup → List DupGroup
  | [] => [⟨[t, u], conf, reason⟩]
  | pg :: rest =>
    if pg.transactions.contains t || pg.transactions.contains u then
      updateGroup t u conf reason pg :: rest
    else pg :: insertPair t u conf reason rest

/-- Loop body for one candidate pair: skip explicitly-ignored pairs,
score the rest, and keep pairs with confidence ≥ 0.6. -/
def handlePair (t u : Tx) (acc : List DupGroup) : List DupGroup :=
  if markedPair t u then acc
  else
    let cr := calculate_duplicate_confidence t u
    if 3/5 ≤ cr.1 then insertPair t u cr.1 cr.2 acc else acc

/-- Pairs `(t, u)` for a fixed `t` against every later element. -/
def processOne (t : Tx) : List Tx → List DupGroup → List DupGroup
  | [], acc => acc
  | u :: us, acc => processOne t us (handlePair t u acc)

/-- All `i < j` pairs of one bucket, in Python's enumeration order. -/
def processGroup : List Tx → List DupGroup → List DupGroup
  | [], acc => acc
  | t :: ts, acc => processGroup ts (processOne t ts acc)

/-- Iterate the buckets (buckets of fewer than two rows are skipped). -/
def processBuckets : List ((Option String × ℚ) × List Tx) → List DupGroup → List DupGroup
  | [], acc => acc
  | (_, g) :: rest, acc =>
    processBuckets rest (if g.length < 2 then acc else processGroup g acc)

/-- Descending-confidence comparison for the final
`potential_dupes.sort(key=..., reverse=True)` (Python's sort is
stable; so is `mergeSort`). -/
def dupGroupGe (x y : DupGroup) : Bool := y.confidence ≤ x.confidence

/-- Embeds `db.find_potential_duplicates` (db.py lines 365–440) over the full
list of stored transactions. -/
def find_potential_duplicates (transactions : List Tx) : List DupGroup :=
  (processBuckets (buildGrouped transactions) []).mergeSort dupGroupGe

/-! ## Calendar dates: strptime/strftime and day arithmetic

`check_for_near_duplicates` computes `datetime.strptime(date,
'%Y-%m-%d') ± timedelta(days=3)` and re-formats with `%Y-%m-%d`;
`parsers.parse_date` tries several `strptime` formats.  CPython
`_strptime` matches `%Y` as exactly four digits, `%m` by the regex
`1[0-2]|0[1-9]|[1-9]`, `%d` by `3[01]|[12]\d|0[1-9]|[1-9]` and `%y` as
exactly two digits; `datetime` then validates the day against the
month (years 1–9999). -/
structure YMD where
  y : ℕ
  m : ℕ
  d : ℕ
  deriving DecidableEq

def isLeapYear (y : ℕ) : Bool := (y % 4 = 0 && y % 100 ≠ 0) || y % 400 = 0

def daysInMonth (y m : ℕ) : ℕ :=
  if m = 2 then (if isLeapYear y then 29 else 28)
  else if m = 4 || m = 6 || m = 9 || m = 11 then 30
  else if 1 ≤ m && m ≤ 12 then 31
  else 0

def isDigitCh (c : Char) : Bool := 48 ≤ c.toNat && c.toNat ≤ 57

def digitVal (c : Char) : ℕ := c.toNat - 48

/-- Embeds `%m`: ordered regex alternation `1[0-2]|0[1-9]|[1-9]`.  Because
every continuation in the formats used here expects a non-digit (or
end of input) right after the field, the first alternative that
matches is the one the backtracking engine keeps. -/
def parseMonthField : List Char → Option (ℕ × List Char)
  | c1 :: c2 :: rest =>
    if c1 = '1' && isDigitCh c2 && digitVal c2 ≤ 2 then some (10 + digitVal c2, rest)
    else if c1 = '0' && isDigitCh c2 && 1 ≤ digitVal c2 then some (digitVal c2, rest)
    else if isDigitCh c1 && 1 ≤ digitVal c1 then some (digitVal c1, c2 :: rest)
    else none
  | [c1] => if isDigitCh c1 && 1 ≤ digitVal c1 then some (digitVal c1, []) else none
  | [] => none

/-- Embeds `%d`: ordered regex alternation `3[01]|[12]\d|0[1-9]|[1-9]`. -/
def parseDayField : List Char → Option (ℕ × List Char)
  | c1 :: c2 :: rest =>
    if c1 = '3' && ('0' = c2 || c2 = '1') then some (30 + digitVal c2, rest)
    else if ('1' = c1 || c1 = '2') && isDigitCh c2 then
      some (10 * digitVal c1 + digitVal c2, rest)
    else if c1 = '0' && isDigitCh c2 && 1 ≤ digitVal c2 then some (digitVal c2, rest)
    else if isDigitCh c1 && 1 ≤ digitVal c1 then some (digitVal c1, c2 :: rest)
    else none
  | [c1] => if isDigitCh c1 && 1 ≤ digitVal c1 then some (digitVal c1, []) else none
  | [] => none

/-- Embeds `%Y`: exactly four digits. -/
def parseYear4Field : List Char → Option (ℕ × List Char)
  | c1 :: c2 :: c3 :: c4 :: rest =>
    if isDigitCh c1 && isDigitCh c2 && isDigitCh c3 && isDigitCh c4 then
      some (1000 * digitVal c1 + 100 * digitVal c2 + 10 * digitVal c3 + digitVal c4, rest)
    else none
  | _ => none

/-- Embeds `%y`: exactly two digits, pivoting at 69 (0–68 → 2000s). -/
def parseYear2Field : List Char → Option (ℕ × List Char)
  | c1 :: c2 :: rest =>
    if isDigitCh c1 && isDigitCh c2 then
      let v := 10 * digitVal c1 + digitVal c2
      some (if v ≤ 68 then 2000 + v else 1900 + v, rest)
    else none
  | _ => none

def expectSep (sep : Char) : List Char → Option (List Char)
  | c :: rest => if c = sep then some rest else none
  | [] => none

/-- Embeds `datetime(y, m, d)` construction: year/day validation. -/
def mkValidYMD (y m d : ℕ) : Option YMD :=
  if 1 ≤ y && y ≤ 9999 && 1 ≤ d && d ≤ daysInMonth y m then some ⟨y, m, d⟩
  else none

/-- Embeds `strptime(s, f"%d{sep}%m{sep}%Y")` (or `%y` when `year4 = false`),
requiring the whole string to be consumed. -/
def parseDMY (sep : Char) (year4 : Bool) (s : List Char) : Option YMD := do
  let (d, s) ← parseDayField s
  let s ← expectSep sep s
  let (m, s) ← parseMonthField s
  let s ← expectSep sep s
  let (y, s) ← (if year4 then parseYear4Field else parseYear2Field) s
  if s.isEmpty then mkValidYMD y m d else none

/-- Embeds `strptime(s, '%Y-%m-%d')`, requiring the whole string to be
consumed. -/
def parseIsoYMD (s : List Char) : Option YMD := do
  let (y, s) ← parseYear4Field s
  let s ← expectSep '-' s
  let (m, s) ← parseMonthField s
  let s ← expectSep '-' s
  let (d, s) ← parseDayField s
  if s.isEmpty then mkValidYMD y m d else none

/-- Zero-pad to four digits (`%Y` in `strftime` for years ≤ 9999). -/
def pad4 (n : ℕ) : String :=
  (if n < 10 then "000" else if n < 100 then "00" else if n < 1000 then "0" else "") ++ toString n

/-- Embeds `strftime('%Y-%m-%d')`. -/
def formatYMD (dt : YMD) : String :=
  pad4 dt.y ++ "-" ++ pad2 dt.m ++ "-" ++ pad2 dt.d

/-- Days since 1970-01-01 of a civil date (Howard Hinnant's algorithm;
Lean's `Int` division is floor division for positive divisors, like
Python's `//`). -/
def daysFromCivil (dt : YMD) : ℤ :=
  let y : ℤ := if dt.m ≤ 2 then (dt.y : ℤ) - 1 else dt.y
  let era := y / 400
  let yoe := y - era * 400
  let mp := ((dt.m : ℤ) + 9) % 12
  let doy := (153 * mp + 2) / 5 + (dt.d : ℤ) - 1
  let doe := yoe * 365 + yoe / 4 - yoe / 100 + doy
  era * 146097 + doe - 719468

/-- Civil date from days since 1970-01-01 (inverse of
`daysFromCivil`). -/
def civilFromDays (z0 : ℤ) : YMD :=
  let z := z0 + 719468
  let era := z / 146097
  let doe := z - era * 146097
  let yoe := (doe - doe / 1460 + doe / 36524 - doe / 146096) / 365
  let yy := yoe + era * 400
  let doy := doe - (365 * yoe + yoe / 4 - yoe / 100)
  let mp := (5 * doy + 2) / 153
  let dd := doy - (153 * mp + 2) / 5 + 1
  let mm := if mp < 10 then mp + 3 else mp - 9
  ⟨(if mm ≤ 2 then yy + 1 else yy).toNat, mm.toNat, dd.toNat⟩

/-- Embeds `dt ± timedelta(days=n)`. -/
def addDays (dt : YMD) (n : ℤ) : YMD :=
  civilFromDays (daysFromCivil dt + n)

/-! ## Pre-insert near-duplicate check (db.py lines 564–595) -/
/-- One reported near-duplicate match. -/
structure NearMatch where
  existing : Tx
  confidence : ℚ
  reason : String
  deriving DecidableEq

/-- Embeds `db.get_transactions_by_range` (db.py lines 202–229): inclusive
string-range filter on the stored dates (a stored record with no date
never satisfies `start <= date <= end`). -/
def get_transactions_by_range (start_date end_date : String) (db : List Tx) : List Tx :=
  db.filter (fun t =>
    match t.date with
    | some d => decide (start_date ≤ d) && decide (d ≤ end_date)
    | none => false)

/-- Embeds `db.check_for_near_duplicates` (db.py lines 564–595); the Python
default is `threshold = 0.7`, and the upload flow calls it with
`threshold = 0.75`.  The stored snapshot `db` stands for the Firestore
collection behind `get_transactions_by_range`. -/
def check_for_near_duplicates (transaction : Tx) (threshold : ℚ) (db : List Tx) :
    List NearMatch :=
  match transaction.date with
  | none => []
  | some date =>
    if date = "" then []
    else
      match parseIsoYMD date.data with
      | none => []
      | some dt =>
        let start := formatYMD (addDays dt (-3))
        let stop := formatYMD (addDays dt 3)
        let existing_txs := get_transactions_by_range start stop db
        let match_list := existing_txs.filterMap (fun existing =>
          let cr := calculate_duplicate_confidence transaction existing
          if threshold ≤ cr.1 then some ⟨existing, cr.1, cr.2⟩ else none)
        match_list.mergeSort (fun x y => y.confidence ≤ x.confidence)

/-! ## Exact-hash store: add_transaction enrichment (db.py lines 80–171)

The Firestore branch of `add_transaction`: look the identity hash up;
on a hit, enrich the stored document (fill nulls, with the legacy
`uploaded_from` replace-on-differ exception) and report
`updated`/`skipped`; on a miss, insert and report `added`.  The store
is an insertion-ordered association list keyed by the hash
(`db.collection('transactions').document(hash_id)`). -/
/-- A stored/incoming transaction document, restricted to the keys
`add_transaction` touches.  `others` carries every remaining field
untouched by enrichment (the frame). -/
structure TxDoc where
  date : String
  amount : ℚ
  description : String
  ref_id : Option String
  uploaded_from : Option String
  bank_category : Option String
  transaction_type : Option String
  spender : Option String
  category : Option String
  others : List (String × String)
  deriving DecidableEq

/-- The per-field update test (db.py line 149): new value truthy, and
either the stored value is `None`, or the field is the legacy
`uploaded_from` and the values differ. -/
def enrichField (isUploadedFrom : Bool) (newVal existingVal : Option String) : Bool :=
  pyTruthy newVal && (existingVal = none || (isUploadedFrom && existingVal ≠ newVal))

/-- The `doc.exists` branch of `add_transaction` (db.py lines 129–157):
returns the enriched document and `"updated"`/`"skipped"`. -/
def enrichExisting (existing incoming : TxDoc) : TxDoc × String :=
  let uUF := enrichField true incoming.uploaded_from existing.uploaded_from
  let uBC := enrichField false incoming.bank_category existing.bank_category
  let uTT := enrichField false incoming.transaction_type existing.transaction_type
  let uSP := enrichField false incoming.spender existing.spender
  let doc : TxDoc :=
    { existing with
      uploaded_from := if uUF then incoming.uploaded_from else existing.uploaded_from
      bank_category := if uBC then incoming.bank_category else existing.bank_category
      transaction_type := if uTT then incoming.transaction_type else existing.transaction_type
      spender := if uSP then incoming.spender else existing.spender }
  (doc, if uUF || uBC || uTT || uSP then "updated" else "skipped")

/-- The identity hash of a document, as recomputed by
`add_transaction` (db.py lines 86–91). -/
def hashOfDoc (t : TxDoc) : String :=
  generate_hash_id t.date t.amount t.description t.ref_id

/-- The document written on first insert (db.py lines 159–169):
default category, `is_fixed` dropped, server upload timestamp. -/
def storedOfNew (t : TxDoc) : TxDoc :=
  { t with
    category := some (t.category.getD "Uncategorized")
    others := (t.others.filter (fun kv => kv.1 ≠ "is_fixed")) ++
      [("uploaded_at", "SERVER_TIMESTAMP")] }

def lookupStore (db : List (String × TxDoc)) (h : String) : Option TxDoc :=
  (db.find? (fun p => p.1 = h)).map Prod.snd

def replaceStore (db : List (String × TxDoc)) (h : String) (d : TxDoc) :
    List (String × TxDoc) :=
  db.map (fun p => if p.1 = h then (p.1, d) else p)

/-- Embeds `db.add_transaction` (db.py lines 80–171, Firestore branch) as a
pure state transformer on the store; returns the new store and the
reported status.  When nothing is enriched the written document equals
the stored one, so the unconditional `replaceStore` matches the
code's update-only-when-nonempty behaviour. -/
def add_transaction (db : List (String × TxDoc)) (t : TxDoc) :
    List (String × TxDoc) × String :=
  let h := hashOfDoc t
  match lookupStore db h with
  | some existing =>
    let es := enrichExisting existing t
    (replaceStore db h es.1, es.2)
  | none => (db ++ [(h, storedOfNew t)], "added")

/-- Importing a parsed document: `add_transaction` on each row in
order, collecting the statuses (the upload loop in the UI layer). -/
def importRows : List (String × TxDoc) → List TxDoc → List (String × TxDoc) × List String
  | db, [] => (db, [])
  | db, r :: rs =>
    let step := add_transaction db r
    let rest := importRows step.1 rs
    (rest.1, step.2 :: rest.2)

/-! ## parsers.py: amount cleaning, date cascade, spender detection -/
/-- Non-overlapping left-to-right removal of every occurrence of
`needle` (Python `s.replace(needle, '')`).  Fuel is the input length,
which suffices for a nonempty needle. -/
def removeAllAux (needle : List Char) : ℕ → List Char → List Char
  | 0, l => l
  | _, [] => []
  | fuel + 1, c :: cs =>
    if needle.isPrefixOf (c :: cs) then removeAllAux needle fuel ((c :: cs).drop needle.length)
    else c :: removeAllAux needle fuel cs

def removeAll (needle : String) (s : List Char) : List Char :=
  removeAllAux needle.data s.length s

/-- Python `needle in s` (substring containment). -/
def containsSub (needle : List Char) : List Char → Bool
  | [] => needle.isEmpty
  | c :: cs => needle.isPrefixOf (c :: cs) || containsSub needle cs

/-- Non-overlapping occurrence count (Python `s.count(needle)`). -/
def countSubstrAux (needle : List Char) : ℕ → List Char → ℕ
  | 0, _ => 0
  | _, [] => 0
  | fuel + 1, c :: cs =>
    if needle.isPrefixOf (c :: cs) then
      1 + countSubstrAux needle fuel ((c :: cs).drop needle.length)
    else countSubstrAux needle fuel cs

def countSubstr (needle : String) (s : List Char) : ℕ :=
  countSubstrAux needle.data s.length s

def natOfDigits (l : List Char) : ℕ :=
  l.foldl (fun acc c => 10 * acc + digitVal c) 0

/-- Embeds `float(s)` on a string drawn from the alphabet `[0-9.-]` (all the
residual cleaner can produce): optional leading minus, digits with at
most one decimal point, at least one digit. -/
def parseUnsignedFloat (l : List Char) : Option ℚ :=
  let intPart := l.takeWhile isDigitCh
  let rest := l.dropWhile isDigitCh
  match rest with
  | [] => if intPart.isEmpty then none else some (natOfDigits intPart)
  | '.' :: frac =>
    if frac.all isDigitCh then
      if intPart.isEmpty && frac.isEmpty then none
      else some ((natOfDigits intPart : ℚ) + mkRat (natOfDigits frac) (10 ^ frac.length))
    else none
  | _ => none

def parseFloatResidual : List Char → Option ℚ
  | '-' :: rest => (parseUnsignedFloat rest).map Neg.neg
  | l => parseUnsignedFloat l

/-- The currency/noise stripping pipeline of `clean_amount`: remove
the `ש"ח` variants, `₪`, thousands separators and quote characters,
then keep only `[0-9.-]` (the `re.sub(r'[^\d\.\-]', '', s)` pass also
removes `NIS` and any other letters). -/
def cleanAmountResidual (v : String) : List Char :=
  let s := (pyStrip v).data
  let s := removeAll "ש\"\"ח" s
  let s := removeAll "ש\"ח" s
  let s := removeAll "₪" s
  let s := removeAll "ח\"ש" s
  let s := removeAll "," s
  let s := removeAll "\"" s
  let s := removeAll "\x27" s
  s.filter (fun c => isDigitCh c || c = '.' || c = '-')

/-- Embeds `TransactionParser.clean_amount` (parsers.py lines 92–119); `none`
models a `NaN`/`None` cell.  Total by construction: every failure path
yields `0.0`. -/
def clean_amount (val : Option String) : ℚ :=
  match val with
  | none => 0
  | some v =>
    let s := (pyStrip v).data
    if (s.headD default = 'ס' || containsSub "ס ש".data s) && !(s.any isDigitCh) then 0
    else
      let r := cleanAmountResidual v
      if r.isEmpty then 0
      else (parseFloatResidual r).getD 0

/-- Embeds `TransactionParser.parse_date` (parsers.py lines 69–90): try the
formats `%d/%m/%Y`, `%d-%m-%Y`, `%d.%m.%Y`, `%d.%m.%y`, `%d/%m/%y`,
`%Y-%m-%d` in order on the stripped string; first hit is re-formatted
as `%Y-%m-%d`; no hit yields `None`. -/
def parse_date (date_str : String) : Option String :=
  let s := (pyStrip date_str).data
  (([parseDMY '/' true s, parseDMY '-' true s, parseDMY '.' true s,
     parseDMY '.' false s, parseDMY '/' false s, parseIsoYMD s].filterMap id).head?).map
    formatYMD

/-- Embeds `TransactionParser.detect_spender` (parsers.py lines 13–29):
first configured card-number substring found in the description wins;
empty description or no hit falls back to the default spender. -/
def detect_spender (card_patterns : List (String × String)) (default_spender : String)
    (description : String) : String :=
  if description = "" then default_spender
  else
    match card_patterns.find? (fun p => containsSub p.1.data description.data) with
    | some p => p.2
    | none => default_spender

/-- First-occurrence-ordered distinct spender names (`counts` dict key
order). -/
def spenderKeys (card_patterns : List (String × String)) : List String :=
  card_patterns.foldl (fun acc p => if acc.contains p.2 then acc else acc ++ [p.2]) []

/-- Total occurrences of a spender's cards in the file content. -/
def spenderCount (card_patterns : List (String × String)) (content : List Char)
    (sp : String) : ℕ :=
  ((card_patterns.filter (fun p => p.2 = sp)).map (fun p => countSubstr p.1 content)).foldl
    (· + ·) 0

/-- Embeds `TransactionParser.detect_file_owner` (parsers.py lines 31–56). -/
def detect_file_owner (card_patterns : List (String × String)) (content : String) :
    Option String :=
  if content = "" then none
  else
    match (spenderKeys card_patterns).filter
        (fun sp => 0 < spenderCount card_patterns content.data sp) with
    | [] => none
    | [sp] => some sp
    | _ => some "Joint"

/-! ## Isracard adapter: the section state machine (parsers.py 772–910)

Rows are lists of stringified cells (`str(v)` per cell, as produced by
the permissive tabular read).  The loop tracks the current section
(`SEARCH → PENDING → VALID`), the header column map (reset by every
section marker), and the emitted transactions. -/
inductive SecState
  | searchSec
  | pendingSec
  | validSec
  deriving DecidableEq

/-- One emitted Isracard transaction (the dict appended at parsers.py
lines 895–904). -/
structure IsraTx where
  date : String
  description : String
  amount : ℚ
  category : String
  currency : String
  source_file : String
  spender : String
  ref_id : Option String
  deriving DecidableEq

structure IsraState where
  sec : SecState
  colIdx : List (String × ℕ)
  txs : List IsraTx
  deriving DecidableEq

/-- Python dict assignment `d[k] = v` on an insertion-ordered
association list. -/
def dictInsert : List (String × ℕ) → String → ℕ → List (String × ℕ)
  | [], k, v => [(k, v)]
  | (k0, v0) :: rest, k, v =>
    if k0 = k then (k0, v) :: rest else (k0, v0) :: dictInsert rest k v

def dictGet (d : List (String × ℕ)) (k : String) : Option ℕ :=
  (d.find? (fun p => p.1 = k)).map Prod.snd

/-- Embeds `col_indices[val] = i` for every nonempty, non-`'nan'` header
cell. -/
def buildColIdx (row_vals : List String) : List (String × ℕ) :=
  row_vals.enum.foldl
    (fun d iv => if iv.2 ≠ "" && iv.2 ≠ "nan" then dictInsert d iv.2 iv.1 else d) []

/-- The merchant-column alias fallback (parsers.py lines 818–823;
unreachable in practice because header detection already requires the
primary name, but embedded for fidelity). -/
def aliasFix (row_vals : List String) (d : List (String × ℕ)) : List (String × ℕ) :=
  if (dictGet d "שם בית עסק").isSome then d
  else
    ["שם שיוך", "תיאור", "פרטים"].foldl
      (fun d al =>
        if row_vals.contains al then dictInsert d "שם בית עסק" (row_vals.indexOf al)
        else d) d

/-- Embeds `re.match(r'\d{2}[./]\d{2}[./]\d{2,4}', s)`: a prefix match, so
only two trailing digits are actually required. -/
def isracardDateShape (l : List Char) : Bool :=
  match l with
  | a :: b :: s1 :: c :: d :: s2 :: e :: f :: _ =>
    isDigitCh a && isDigitCh b && (s1 = '.' || s1 = '/') &&
    isDigitCh c && isDigitCh d && (s2 = '.' || s2 = '/') &&
    isDigitCh e && isDigitCh f
  | _ => false

/-- Embeds `val.split('.')[0]`. -/
def takeBeforeDot (v : String) : String :=
  String.mk (v.data.takeWhile (fun c => c ≠ '.'))

/-- The data-row tail of the Isracard loop body (parsers.py lines
833–904), reached when the row is no marker, no header, the section is
not PENDING and a header has been seen. -/
def isracardDataRow (patterns : List (String × String)) (default_spender : String)
    (st : IsraState) (row : List String) : IsraState :=
  let date_idx := (dictGet st.colIdx "תאריך רכישה").getD 0
  if date_idx < row.length then
    let date_val := pyStrip (row.getD date_idx "")
    if !isracardDateShape date_val.data then st
    else if containsSub "תאריך".data date_val.data then st
    else
      let amount_idx := (dictGet st.colIdx "סכום חיוב").getD ((dictGet st.colIdx "סכום עסקה").getD 2)
      let amount_val0 := if amount_idx < row.length then clean_amount (some (row.getD amount_idx "")) else 0
      let fallback_idx := (dictGet st.colIdx "סכום עסקה").getD 2
      let amount_val :=
        if amount_val0 = 0 then
          (if fallback_idx < row.length then clean_amount (some (row.getD fallback_idx "")) else 0)
        else amount_val0
      if amount_val = 0 then st
      else
        let final_amount := if amount_val < 0 then qabs amount_val else -(qabs amount_val)
        let desc_idx := (dictGet st.colIdx "שם בית עסק").getD 1
        let desc_val := if desc_idx < row.length then row.getD desc_idx "" else "Unknown"
        let ref_idx := ((dictGet st.colIdx ("מס" ++ "\x27" ++ " שובר")).orElse
          (fun _ => (dictGet st.colIdx "מספר שובר").orElse
            (fun _ => (dictGet st.colIdx "שובר").orElse
              (fun _ => dictGet st.colIdx "אסמכתא"))))
        let ref_id :=
          match ref_idx with
          | some i =>
            if i ≠ 0 && i < row.length then
              let v := pyStrip (row.getD i "")
              if v ≠ "" && v ≠ "nan" then some (takeBeforeDot v) else none
            else none
          | none => none
        match parse_date date_val with
        | some date_str =>
          let desc := pyStrip desc_val
          { st with txs := st.txs ++
              [⟨date_str, desc, final_amount, "Uncategorized", "ILS", "Isracard",
                detect_spender patterns default_spender desc, ref_id⟩] }
        | none => st
  else st

/-- The pending-section marker test (`"עסקאות שטרם נקלטו" in row_str`). -/
def isracardPendingMarker (row : List String) : Bool :=
  containsSub "עסקאות שטרם נקלטו".data (String.intercalate " " (row.map pyStrip)).data

/-- The valid-section marker test (`"עסקאות למועד חיוב" in row_str or
"עסקאות בחיוב" in row_str`). -/
def isracardValidMarker (row : List String) : Bool :=
  containsSub "עסקאות למועד חיוב".data (String.intercalate " " (row.map pyStrip)).data ||
  containsSub "עסקאות בחיוב".data (String.intercalate " " (row.map pyStrip)).data

/-- One iteration of the Isracard row loop (parsers.py lines 796–904):
section markers reset the column map, header rows rebuild it, PENDING
rows and pre-header rows are skipped, and everything else goes through
the data-row logic. -/
def isracardStep (patterns : List (String × String)) (default_spender : String)
    (st : IsraState) (row : List String) : IsraState :=
  let row_vals := row.map pyStrip
  if isracardPendingMarker row then
    ⟨.pendingSec, [], st.txs⟩
  else if isracardValidMarker row then
    ⟨.validSec, [], st.txs⟩
  else if row_vals.contains "תאריך רכישה" && row_vals.contains "שם בית עסק" then
    ⟨st.sec, aliasFix row_vals (buildColIdx row_vals), st.txs⟩
  else if st.sec = .pendingSec then st
  else if st.colIdx.isEmpty then st
  else isracardDataRow patterns default_spender st row

def isracardRun (patterns : List (String × String)) (default_spender : String) :
    IsraState → List (List String) → IsraState
  | st, [] => st
  | st, r :: rs => isracardRun patterns default_spender (isracardStep patterns default_spender st r) rs

/-- Embeds `TransactionParser._parse_isracard` (parsers.py lines 772–910):
`content` stands for the pandas rendering of the raw frame that
`detect_file_owner` scans (only substring counts of the card patterns
matter); the per-file owner overrides the default spender when truthy
and not "Joint". -/
def isracardOwnerDefault (patterns : List (String × String)) (default_spender : String)
    (content : String) : String :=
  match detect_file_owner patterns content with
  | some o => if o ≠ "" && o ≠ "Joint" then o else default_spender
  | none => default_spender

def parseIsracard (patterns : List (String × String)) (default_spender : String)
    (content : String) (rows : List (List String)) : List IsraTx :=
  (isracardRun patterns (isracardOwnerDefault patterns default_spender content)
    ⟨.searchSec, [], []⟩ rows).txs

/-! ## Claim C4: the confidence score -/
/-- The five additive components, phrased from the claim's wording
(the same-spender bonus requires a truthy spender: Python's `and
tx1.get('spender')` also rules out the empty string). -/
def dateComponent (tx1 tx2 : Tx) : ℚ := if tx1.date = tx2.date then 30/100 else 0

def amountComponent (tx1 tx2 : Tx) : ℚ :=
  if qabs tx1.amount = qabs tx2.amount then 35/100
  else if 0 < qabs tx1.amount ∧
      qabs (qabs tx1.amount - qabs tx2.amount) / qabs tx1.amount < 5/100 then 25/100
  else 0

def descComponent (tx1 tx2 : Tx) : ℚ :=
  let dsim := seqRatio (normalize_description tx1.description)
    (normalize_description tx2.description)
  if 4/5 < dsim then 25/100 else if 3/5 < dsim then 15/100 else 0

def overlapComponent (tx1 tx2 : Tx) : ℚ :=
  if (is_bank_cc_overlap tx1 tx2).isSome then 20/100 else 0

def spenderComponent (tx1 tx2 : Tx) : ℚ :=
  if tx1.spender = tx2.spender ∧ pyTruthy tx1.spender then 5/100 else 0

/-- Concrete import rows for the C3 counterexample and witness. -/
def rowShop : TxDoc := ⟨"2025-01-01", -100, "shop", none, none, none, none, none, none, []⟩

def rowShopA : TxDoc := ⟨"2025-01-01", -100, "shop a", none, none, none, none, none, none, []⟩

def rowShopB : TxDoc := ⟨"2025-01-02", -200, "shop b", none, none, none, none, none, none, []⟩

/-! ## Claim C7: the pre-insert near-duplicate window and threshold -/
/-- The stored-side window test used by the pre-insert check: the
stored date string lies (inclusively) between the candidate's date
minus three days and plus three days, both rendered as `%Y-%m-%d`
(zero-padded ISO strings compare lexicographically in chronological
order). -/
def withinWindow (dt : YMD) (t : Tx) : Bool :=
  match t.date with
  | some d => decide (formatYMD (addDays dt (-3)) ≤ d) && decide (d ≤ formatYMD (addDays dt 3))
  | none => false

/-- The concrete header, marker and data rows of the claim's
scenario. -/
def hdrRow : List String := ["תאריך רכישה", "שם בית עסק", "סכום חיוב"]

def pendRow : List String := ["עסקאות שטרם נקלטו"]

def validRow : List String := ["עסקאות למועד חיוב"]

def dataRow1 : List String := ["01/02/2025", "SHOP A", "100.50"]

def dataRow2 : List String := ["02/02/2025", "SHOP B", "40"]

def dataRow3 : List String := ["03/02/2025", "SHOP C", "7.30"]

def dataRow4 : List String := ["04/02/2025", "SHOP D", "55"]

def dataRow5 : List String := ["05/02/2025", "SHOP E", "12.90"]

/-! ## Claims C5/C6: the grouping pass of the full-database scan -/
/-- Two transactions co-occupy some flagged group. -/
def inSameGroup (acc : List DupGroup) (a b : Tx) : Prop :=
  ∃ g ∈ acc, a ∈ g.transactions ∧ b ∈ g.transactions

/-- Invariant of the bucket-building fold: buckets are exactly the
per-key filters of the processed prefix, keys are unique, and every
processed transaction's key has a bucket. -/
def groupedInv (processed : List Tx) (acc : List ((Option String × ℚ) × List Tx)) : Prop :=
  (∀ p ∈ acc, p.2 = processed.filter (fun x => txKey x = p.1)) ∧
  (acc.map Prod.fst).Nodup ∧
  (∀ x ∈ processed, txKey x ∈ acc.map Prod.fst)

/-- Every flagged group's members share one bucket key. -/
def keyedGroups (acc : List DupGroup) : Prop :=
  ∀ g ∈ acc, ∃ k, ∀ x ∈ g.transactions, txKey x = k

/-- Concrete transactions for the C5/C6 counterexamples and
witnesses. -/
def txX1 : Tx := ⟨"a", some "2025-05-01", 100, "supermarket", "", "", none, []⟩

def txX2 : Tx := ⟨"b", some "2025-05-01", 101, "supermarket", "", "", none, []⟩

def txY1 : Tx := ⟨"y1", some "2025-06-01", -50, "shop x", "", "", none, []⟩

def txY2 : Tx := ⟨"y2", some "2025-06-01", -50, "shop x", "", "", none, []⟩

def txU0 : Tx := ⟨"u0", some "2025-07-01", -80, "cafe y", "", "", none, ["u1", "u2"]⟩

def txU1 : Tx := ⟨"u1", some "2025-07-01", -80, "cafe y", "", "", none, ["u3"]⟩

def txU2 : Tx := ⟨"u2", some "2025-07-01", -80, "cafe y", "", "", none, []⟩

def txU3 : Tx := ⟨"u3", some "2025-07-01", -80, "cafe y", "", "", none, []⟩

instance (acc : List DupGroup) (a b : Tx) : Decidable (inSameGroup acc a b) := by
  unfold inSameGroup
  infer_instance

/-- Group well-formedness: at least two members, and a group of
exactly two is an unmarked founding pair. -/
def dupGroupsWellFormed (acc : List DupGroup) : Prop :=
  ∀ g ∈ acc, 2 ≤ g.transactions.length ∧
    ∀ a b, g.transactions = [a, b] → markedPair a b = false

/-- Concrete transactions for the C6 counterexample: `txT0` is marked
not-duplicate of `txT1`; the near-duplicate candidate's identity hash
sits in the stored record's `not_duplicate_of`. -/
def txT0 : Tx := ⟨"t0", some "2025-06-01", -50, "shop x", "", "", none, ["t1"]⟩

def txT1 : Tx := ⟨"t1", some "2025-06-01", -50, "shop x", "", "", none, []⟩

def txT2 : Tx := ⟨"t2", some "2025-06-01", -50, "shop x", "", "", none, []⟩

def candNear : Tx := ⟨"", some "2025-05-01", -100, "supermarket", "", "", none, []⟩

def storedNear : Tx :=
  ⟨"s1", some "2025-05-01", -100, "supermarket tlv", "", "", none,
    [generate_hash_id "2025-05-01" (-100) "supermarket" none]⟩

/-! ## Theorems settling the claims, with supporting lemmas and
validation examples -/

example : normalize_description "  Supermarket   TLV  " = "supermarket tlv" := by decide

example : formatAmount2 (-100) = "-100.00" := by decide

/-- FIPS 180-4 test vector, validating the SHA-256 embedding. -/
example : sha256Hex "abc" =
    "ba7816bf8f01cfea414140de5dae2223b00361a396177a9cb410ff61f20015ad" := by decide

/-- The hashed strings for amounts `+100` and `-100` differ in length by
exactly the sign character, whatever the date, description and ref. -/
theorem rawHashString_sign_ne (date desc : String) (ref : Option String) :
    rawHashString date 100 desc ref ≠ rawHashString date (-100) desc ref := by
  have h6 : (formatAmount2 100).length = 6 := by decide
  have h7 : (formatAmount2 (-100)).length = 7 := by decide
  intro h
  have hl := congrArg String.length h
  unfold rawHashString at hl
  match ref with
  | none =>
    simp only [String.length_append, h6, h7] at hl
    omega
  | some r =>
    by_cases hr : r = "" <;>
      simp only [hr, if_true, if_false, reduceIte, String.length_append, h6, h7] at hl <;>
      omega

/-- C1: `generate_hash_id` is a pure function of (date, amount,
description, ref_id) hashing the ISO date, the signed two-decimal
amount and the lowercased/trimmed/whitespace-collapsed description
(plus a truthy ref).  Whitespace/case variants of the description hash
identically for every date, amount and ref; for amounts `+100` and
`-100` the hashed preimage strings always differ (they differ by the
sign character), and at the spec's example inputs the SHA-256 digests
themselves differ. -/
theorem C1_identity_hash :
    (∀ (date : String) (amount : ℚ) (ref : Option String),
       generate_hash_id date amount "  Supermarket   TLV  " ref =
       generate_hash_id date amount "supermarket tlv" ref)
  ∧ (∀ (date desc : String) (ref : Option String),
       rawHashString date 100 desc ref ≠ rawHashString date (-100) desc ref)
  ∧ generate_hash_id "2025-01-01" 100 "supermarket tlv" none ≠
      generate_hash_id "2025-01-01" (-100) "supermarket tlv" none := by
  refine ⟨?_, rawHashString_sign_ne, by decide⟩
  intro date amount ref
  have hnorm : normalize_description "  Supermarket   TLV  " =
      normalize_description "supermarket tlv" := by decide
  unfold generate_hash_id rawHashString
  rw [hnorm]

/-- C10: an empty-string `ref_id` is falsy in Python, so
`generate_hash_id` with `ref_id = ""` builds the very same string as
with `ref_id = None`: the hashes coincide for every date, amount and
description. -/
theorem C10_empty_ref_id_collides (date : String) (amount : ℚ) (desc : String) :
    generate_hash_id date amount desc (some "") =
    generate_hash_id date amount desc none := rfl

example : seqRatio "abcdefghij" "abcdefghiX" = 9/10 := by with_unfolding_all decide

example : seqRatio "supermarket tlv" "supermarket tel aviv" = 6/7 := by with_unfolding_all decide

example : seqRatio "abab" "bababa" = 4/5 := by with_unfolding_all decide

example : seqRatio "one zero bank" "isracard gold" = 1/13 := by with_unfolding_all decide

example : seqRatio "aaa" "aa" = 4/5 := by with_unfolding_all decide

example : seqRatio "xaybzc" "abc" = 2/3 := by with_unfolding_all decide

example : addDays ⟨2025, 1, 1⟩ (-3) = ⟨2024, 12, 29⟩ := by decide

example : addDays ⟨2024, 2, 27⟩ 3 = ⟨2024, 3, 1⟩ := by decide

example : parseIsoYMD "2025-06-15".data = some ⟨2025, 6, 15⟩ := by decide

example : parseIsoYMD "2025-02-30".data = none := by decide

example : parseDMY '/' true "31/12/2024".data = some ⟨2024, 12, 31⟩ := by decide

example : parseDMY '/' true "13/13/2024".data = none := by decide

example : clean_amount (some "1,200.50 ₪") = 1200.50 := by with_unfolding_all decide

example : clean_amount (some "ש\"ח") = 0 := by with_unfolding_all decide

example : clean_amount (some "-45.9") = -45.9 := by with_unfolding_all decide

example : parse_date "31/12/2024" = some "2024-12-31" := by decide

example : parse_date "13/13/2024" = none := by decide

example : parse_date " 03.02.25 " = some "2025-02-03" := by decide

/-! ## End-to-end validation against CPython reference runs -/
example : generate_hash_id "2025-01-01" (-100) "  Supermarket   TLV  " none =
    "ef99b2bac881a014512524b9b5ae54a6560a265d3fec8e82c5017f31fbee621a" := by
  with_unfolding_all decide

example : generate_hash_id "2025-03-15" (-1200.5) "SUPER  Market" (some "ref42") =
    "59b144178530aae82bd0764b9f15b93182a6d3376193af9e027f3a82bb04bfa5" := by
  with_unfolding_all decide

example :
    calculate_duplicate_confidence
      ⟨"a", some "2025-05-01", -100, "Super Market TLV", "", "", some "Dmitry", []⟩
      ⟨"b", some "2025-05-01", 100, "SUPER MARKET TLV", "", "", some "Dmitry", []⟩ =
    (19/20, "same date; exact amount; desc 100%; same owner") := by
  with_unfolding_all decide

example :
    calculate_duplicate_confidence
      ⟨"a", some "2025-05-01", -100, "Super Market TLV", "", "", some "Dmitry", []⟩
      ⟨"c", some "2025-05-01", -101, "Super Market TLV", "", "", none, []⟩ =
    (4/5, "same date; amount ~5%; desc 100%") := by
  with_unfolding_all decide

example :
    calculate_duplicate_confidence
      ⟨"a", some "2025-05-02", -95, "totally different words here", "OneZero_Table",
        "Credit Card Payoff", none, []⟩
      ⟨"b", some "2025-05-01", -100, "shop", "Isracard", "", none, []⟩ =
    (1/5, "bank↔cc overlap") := by
  with_unfolding_all decide

theorem confidence_eq_components (tx1 tx2 : Tx) :
    (calculate_duplicate_confidence tx1 tx2).1 =
      min (dateComponent tx1 tx2 + amountComponent tx1 tx2 + descComponent tx1 tx2 +
        overlapComponent tx1 tx2 + spenderComponent tx1 tx2) 1 := by
  rcases hov : is_bank_cc_overlap tx1 tx2 with _ | ov <;>
    simp only [calculate_duplicate_confidence, dateComponent, amountComponent,
      descComponent, overlapComponent, spenderComponent, hov, Option.isSome_none,
      Option.isSome_some, Bool.and_eq_true, decide_eq_true_eq,
      apply_ite (@Prod.fst ℚ (List String)), Bool.false_eq_true, if_false,
      if_true] <;>
    norm_num

theorem dateComponent_nonneg (tx1 tx2 : Tx) : 0 ≤ dateComponent tx1 tx2 := by
  unfold dateComponent; split_ifs <;> norm_num

theorem amountComponent_nonneg (tx1 tx2 : Tx) : 0 ≤ amountComponent tx1 tx2 := by
  unfold amountComponent; split_ifs <;> norm_num

theorem descComponent_nonneg (tx1 tx2 : Tx) : 0 ≤ descComponent tx1 tx2 := by
  simp only [descComponent]; split_ifs <;> norm_num

theorem overlapComponent_nonneg (tx1 tx2 : Tx) : 0 ≤ overlapComponent tx1 tx2 := by
  unfold overlapComponent; split_ifs <;> norm_num

theorem spenderComponent_nonneg (tx1 tx2 : Tx) : 0 ≤ spenderComponent tx1 tx2 := by
  unfold spenderComponent; split_ifs <;> norm_num

theorem components_sum_nonneg (tx1 tx2 : Tx) :
    0 ≤ dateComponent tx1 tx2 + amountComponent tx1 tx2 + descComponent tx1 tx2 +
      overlapComponent tx1 tx2 + spenderComponent tx1 tx2 := by
  have h1 := dateComponent_nonneg tx1 tx2
  have h2 := amountComponent_nonneg tx1 tx2
  have h3 := descComponent_nonneg tx1 tx2
  have h4 := overlapComponent_nonneg tx1 tx2
  have h5 := spenderComponent_nonneg tx1 tx2
  linarith

/-- Two transactions sharing the `(date, abs(amount))` bucket key
always score at least `0.30 + 0.35 = 0.65`. -/
theorem confidence_ge_of_same_key (a b : Tx) (h : txKey a = txKey b) :
    13/20 ≤ (calculate_duplicate_confidence a b).1 := by
  have hd : a.date = b.date := congrArg Prod.fst h
  have ha : qabs a.amount = qabs b.amount := congrArg Prod.snd h
  rw [confidence_eq_components]
  refine le_min ?_ (by norm_num)
  have h1 : dateComponent a b = 30/100 := by simp [dateComponent, hd]
  have h2 : amountComponent a b = 35/100 := by simp [amountComponent, ha]
  have h3 := descComponent_nonneg a b
  have h4 := overlapComponent_nonneg a b
  have h5 := spenderComponent_nonneg a b
  rw [h1, h2]
  linarith

/-- C4: `calculate_duplicate_confidence` returns exactly the capped sum
of the five spec components, the result always lies in `[0, 1]`, and a
same-date, equal-absolute-amount pair with description similarity 0.9
scores at least 0.90. -/
theorem C4_confidence_score :
    (∀ tx1 tx2 : Tx,
      (calculate_duplicate_confidence tx1 tx2).1 =
        min (dateComponent tx1 tx2 + amountComponent tx1 tx2 + descComponent tx1 tx2 +
          overlapComponent tx1 tx2 + spenderComponent tx1 tx2) 1 ∧
      0 ≤ (calculate_duplicate_confidence tx1 tx2).1 ∧
      (calculate_duplicate_confidence tx1 tx2).1 ≤ 1)
  ∧ (∀ tx1 tx2 : Tx,
      tx1.date = tx2.date →
      qabs tx1.amount = qabs tx2.amount →
      seqRatio (normalize_description tx1.description)
        (normalize_description tx2.description) = 9/10 →
      9/10 ≤ (calculate_duplicate_confidence tx1 tx2).1) := by
  refine ⟨fun tx1 tx2 => ⟨confidence_eq_components tx1 tx2, ?_, ?_⟩, ?_⟩
  · rw [confidence_eq_components tx1 tx2]
    exact le_min (components_sum_nonneg tx1 tx2) (by norm_num)
  · rw [confidence_eq_components tx1 tx2]
    exact min_le_right _ _
  · intro tx1 tx2 hd ha hr
    rw [confidence_eq_components tx1 tx2]
    refine le_min ?_ (by norm_num)
    have h1 : dateComponent tx1 tx2 = 30/100 := by simp [dateComponent, hd]
    have h2 : amountComponent tx1 tx2 = 35/100 := by simp [amountComponent, ha]
    have h3 : descComponent tx1 tx2 = 25/100 := by
      simp only [descComponent, hr]
      norm_num
    have h4 := overlapComponent_nonneg tx1 tx2
    have h5 := spenderComponent_nonneg tx1 tx2
    rw [h1, h2, h3]
    linarith

/-- Witness for C4's conditional part at concrete transactions with
description similarity exactly 0.9. -/
theorem C4_confidence_score_witness :
    9/10 ≤ (calculate_duplicate_confidence
      ⟨"w1", some "2025-05-01", -100, "abcdefghij", "", "", none, []⟩
      ⟨"w2", some "2025-05-01", 100, "abcdefghix", "", "", none, []⟩).1 :=
  C4_confidence_score.2
    ⟨"w1", some "2025-05-01", -100, "abcdefghij", "", "", none, []⟩
    ⟨"w2", some "2025-05-01", 100, "abcdefghix", "", "", none, []⟩
    rfl (by with_unfolding_all decide) (by with_unfolding_all decide)

/-! ## Claim C2: enrichment is non-destructive -/
/-- C2: on an exact-hash hit, `add_transaction` never overwrites a
non-null stored `bank_category`, `transaction_type` or `spender`; any
change to those fields fills a null stored value from a truthy
(non-null) incoming value; `uploaded_from` may additionally be
replaced when the values differ; the status is `updated` exactly when
the stored document changed (at least one field applied) and
`skipped` otherwise; every other stored field is left unchanged; and
the store transition of `add_transaction` is exactly this enrichment
on the looked-up document. -/
theorem C2_enrichment_non_destructive (existing incoming : TxDoc) :
    (∀ v, existing.bank_category = some v →
      (enrichExisting existing incoming).1.bank_category = some v)
  ∧ (∀ v, existing.transaction_type = some v →
      (enrichExisting existing incoming).1.transaction_type = some v)
  ∧ (∀ v, existing.spender = some v →
      (enrichExisting existing incoming).1.spender = some v)
  ∧ ((enrichExisting existing incoming).1.bank_category ≠ existing.bank_category →
      existing.bank_category = none ∧
      (enrichExisting existing incoming).1.bank_category = incoming.bank_category ∧
      pyTruthy incoming.bank_category)
  ∧ ((enrichExisting existing incoming).1.transaction_type ≠ existing.transaction_type →
      existing.transaction_type = none ∧
      (enrichExisting existing incoming).1.transaction_type = incoming.transaction_type ∧
      pyTruthy incoming.transaction_type)
  ∧ ((enrichExisting existing incoming).1.spender ≠ existing.spender →
      existing.spender = none ∧
      (enrichExisting existing incoming).1.spender = incoming.spender ∧
      pyTruthy incoming.spender)
  ∧ ((enrichExisting existing incoming).1.uploaded_from ≠ existing.uploaded_from →
      (enrichExisting existing incoming).1.uploaded_from = incoming.uploaded_from ∧
      pyTruthy incoming.uploaded_from)
  ∧ ((enrichExisting existing incoming).2 = "updated" ∨
      (enrichExisting existing incoming).2 = "skipped")
  ∧ ((enrichExisting existing incoming).2 = "updated" ↔
      (enrichExisting existing incoming).1 ≠ existing)
  ∧ ((enrichExisting existing incoming).1.date = existing.date ∧
      (enrichExisting existing incoming).1.amount = existing.amount ∧
      (enrichExisting existing incoming).1.description = existing.description ∧
      (enrichExisting existing incoming).1.ref_id = existing.ref_id ∧
      (enrichExisting existing incoming).1.category = existing.category ∧
      (enrichExisting existing incoming).1.others = existing.others)
  ∧ (∀ db, lookupStore db (hashOfDoc incoming) = some existing →
      add_transaction db incoming =
        (replaceStore db (hashOfDoc incoming) (enrichExisting existing incoming).1,
         (enrichExisting existing incoming).2)) := by
  have hUFspec : ∀ h : enrichField true incoming.uploaded_from existing.uploaded_from = true,
      pyTruthy incoming.uploaded_from = true ∧
        (existing.uploaded_from = none ∨ existing.uploaded_from ≠ incoming.uploaded_from) := by
    intro h
    simpa [enrichField, decide_eq_true_eq] using h
  have hBCspec : ∀ h : enrichField false incoming.bank_category existing.bank_category = true,
      pyTruthy incoming.bank_category = true ∧ existing.bank_category = none := by
    intro h
    simpa [enrichField, decide_eq_true_eq] using h
  have hTTspec : ∀ h : enrichField false incoming.transaction_type existing.transaction_type = true,
      pyTruthy incoming.transaction_type = true ∧ existing.transaction_type = none := by
    intro h
    simpa [enrichField, decide_eq_true_eq] using h
  have hSPspec : ∀ h : enrichField false incoming.spender existing.spender = true,
      pyTruthy incoming.spender = true ∧ existing.spender = none := by
    intro h
    simpa [enrichField, decide_eq_true_eq] using h
  have htruthy_ne : ∀ o : Option String, pyTruthy o = true → o ≠ none := by
    intro o h
    cases o <;> simp_all [pyTruthy]
  refine ⟨?_, ?_, ?_, ?_, ?_, ?_, ?_, ?_, ?_, ?_, ?_⟩
  · intro v h
    simp [enrichExisting, enrichField, h]
  · intro v h
    simp [enrichExisting, enrichField, h]
  · intro v h
    simp [enrichExisting, enrichField, h]
  · intro hne
    cases hf : enrichField false incoming.bank_category existing.bank_category with
    | false => exact absurd (by simp [enrichExisting, hf]) hne
    | true =>
      obtain ⟨ht, hnone⟩ := hBCspec hf
      exact ⟨hnone, by simp [enrichExisting, hf], ht⟩
  · intro hne
    cases hf : enrichField false incoming.transaction_type existing.transaction_type with
    | false => exact absurd (by simp [enrichExisting, hf]) hne
    | true =>
      obtain ⟨ht, hnone⟩ := hTTspec hf
      exact ⟨hnone, by simp [enrichExisting, hf], ht⟩
  · intro hne
    cases hf : enrichField false incoming.spender existing.spender with
    | false => exact absurd (by simp [enrichExisting, hf]) hne
    | true =>
      obtain ⟨ht, hnone⟩ := hSPspec hf
      exact ⟨hnone, by simp [enrichExisting, hf], ht⟩
  · intro hne
    cases hf : enrichField true incoming.uploaded_from existing.uploaded_from with
    | false => exact absurd (by simp [enrichExisting, hf]) hne
    | true => exact ⟨by simp [enrichExisting, hf], (hUFspec hf).1⟩
  · simp only [enrichExisting]
    split_ifs <;> simp
  · constructor
    · intro hs
      have hflags : (enrichField true incoming.uploaded_from existing.uploaded_from ||
          enrichField false incoming.bank_category existing.bank_category ||
          enrichField false incoming.transaction_type existing.transaction_type ||
          enrichField false incoming.spender existing.spender) = true := by
        by_contra hc
        simp only [enrichExisting] at hs
        rw [if_neg (by simp_all)] at hs
        exact absurd hs (by decide)
      simp only [Bool.or_eq_true] at hflags
      rcases hflags with ((hUF | hBC) | hTT) | hSP
      · obtain ⟨ht, hor⟩ := hUFspec hUF
        intro heq
        have huf : (enrichExisting existing incoming).1.uploaded_from = incoming.uploaded_from := by
          simp [enrichExisting, hUF]
        rcases hor with hnone | hne
        · rw [heq, hnone] at huf
          exact htruthy_ne _ ht huf.symm
        · rw [heq] at huf
          exact hne huf
      · obtain ⟨ht, hnone⟩ := hBCspec hBC
        intro heq
        have hbc : (enrichExisting existing incoming).1.bank_category = incoming.bank_category := by
          simp [enrichExisting, hBC]
        rw [heq, hnone] at hbc
        exact htruthy_ne _ ht hbc.symm
      · obtain ⟨ht, hnone⟩ := hTTspec hTT
        intro heq
        have htt : (enrichExisting existing incoming).1.transaction_type = incoming.transaction_type := by
          simp [enrichExisting, hTT]
        rw [heq, hnone] at htt
        exact htruthy_ne _ ht htt.symm
      · obtain ⟨ht, hnone⟩ := hSPspec hSP
        intro heq
        have hsp : (enrichExisting existing incoming).1.spender = incoming.spender := by
          simp [enrichExisting, hSP]
        rw [heq, hnone] at hsp
        exact htruthy_ne _ ht hsp.symm
    · intro hne
      by_contra hs
      have hsk : (enrichExisting existing incoming).2 = "skipped" := by
        rcases (by
          simp only [enrichExisting]
          split_ifs <;> simp :
          (enrichExisting existing incoming).2 = "updated" ∨
            (enrichExisting existing incoming).2 = "skipped") with h | h
        · exact absurd h hs
        · exact h
      have hall : ¬(enrichField true incoming.uploaded_from existing.uploaded_from ||
          enrichField false incoming.bank_category existing.bank_category ||
          enrichField false incoming.transaction_type existing.transaction_type ||
          enrichField false incoming.spender existing.spender) = true := by
        intro hflags
        simp only [enrichExisting] at hsk
        rw [if_pos hflags] at hsk
        exact absurd hsk (by decide)
      simp only [Bool.or_eq_true, not_or, Bool.not_eq_true] at hall
      obtain ⟨⟨⟨h1, h2⟩, h3⟩, h4⟩ := hall
      exact hne (by simp [enrichExisting, h1, h2, h3, h4])
  · exact ⟨rfl, rfl, rfl, rfl, rfl, rfl⟩
  · intro db hdb
    simp [add_transaction, hdb]

/-- Witness for C2 at the spec's scenario: a stored
`spender = "Dmitry"` survives re-import with `spender = "Joint"`, and
the import is reported `skipped` when nothing else is enrichable. -/
theorem C2_enrichment_non_destructive_witness :
    (enrichExisting
      ⟨"2025-01-01", -100, "shop", none, some "upl", some "bc", some "tt", some "Dmitry",
        some "Food", []⟩
      ⟨"2025-01-01", -100, "shop", none, some "upl", some "bc", some "tt", some "Joint",
        some "Food", []⟩).1.spender = some "Dmitry" :=
  (C2_enrichment_non_destructive
    ⟨"2025-01-01", -100, "shop", none, some "upl", some "bc", some "tt", some "Dmitry",
      some "Food", []⟩
    ⟨"2025-01-01", -100, "shop", none, some "upl", some "bc", some "tt", some "Joint",
      some "Food", []⟩).2.2.1 "Dmitry" rfl

/-! ## Claim C3: idempotent import -/
theorem enrichStatus_mem (e i : TxDoc) :
    (enrichExisting e i).2 = "updated" ∨ (enrichExisting e i).2 = "skipped" := by
  simp only [enrichExisting]
  split_ifs <;> simp

theorem lookupStore_eq_none_iff (db : List (String × TxDoc)) (h : String) :
    lookupStore db h = none ↔ h ∉ db.map Prod.fst := by
  simp only [lookupStore, Option.map_eq_none', List.find?_eq_none, List.mem_map,
    decide_eq_true_eq]
  constructor
  · rintro hall ⟨p, hp, rfl⟩
    exact hall p hp rfl
  · intro hmem p hp hfst
    exact hmem ⟨p, hp, hfst⟩

theorem lookupStore_isSome_of_mem (db : List (String × TxDoc)) (h : String)
    (hmem : h ∈ db.map Prod.fst) : (lookupStore db h).isSome := by
  cases hl : lookupStore db h with
  | some e => rfl
  | none => exact absurd hmem ((lookupStore_eq_none_iff db h).mp hl)

theorem keys_replaceStore (db : List (String × TxDoc)) (h : String) (d : TxDoc) :
    (replaceStore db h d).map Prod.fst = db.map Prod.fst := by
  induction db with
  | nil => rfl
  | cons p rest ih =>
    simp only [replaceStore, List.map_cons] at ih ⊢
    split_ifs <;> simp [ih]

theorem keys_add_transaction_super (db : List (String × TxDoc)) (t : TxDoc) (k : String)
    (hk : k ∈ db.map Prod.fst) : k ∈ (add_transaction db t).1.map Prod.fst := by
  simp only [add_transaction]
  cases hl : lookupStore db (hashOfDoc t) with
  | some e => simpa [keys_replaceStore] using hk
  | none => simp [hk]

theorem keys_add_transaction_self (db : List (String × TxDoc)) (t : TxDoc) :
    hashOfDoc t ∈ (add_transaction db t).1.map Prod.fst := by
  simp only [add_transaction]
  cases hl : lookupStore db (hashOfDoc t) with
  | some e =>
    have : hashOfDoc t ∈ db.map Prod.fst := by
      by_contra hc
      exact absurd hl (by simp [(lookupStore_eq_none_iff db (hashOfDoc t)).mpr hc])
    simpa [keys_replaceStore] using this
  | none => simp

theorem keys_importRows_super (rows : List TxDoc) (db : List (String × TxDoc)) (k : String)
    (hk : k ∈ db.map Prod.fst) : k ∈ (importRows db rows).1.map Prod.fst := by
  induction rows generalizing db with
  | nil => exact hk
  | cons r rs ih => exact ih _ (keys_add_transaction_super db r k hk)

theorem keys_importRows_cover (rows : List TxDoc) (db : List (String × TxDoc)) :
    ∀ r ∈ rows, hashOfDoc r ∈ (importRows db rows).1.map Prod.fst := by
  induction rows generalizing db with
  | nil => intro r hr; cases hr
  | cons r rs ih =>
    intro r' hr'
    simp only [importRows]
    rcases List.mem_cons.mp hr' with rfl | hr'
    · exact keys_importRows_super rs _ _ (keys_add_transaction_self db r')
    · exact ih _ r' hr'

theorem add_transaction_status_of_mem (db : List (String × TxDoc)) (t : TxDoc)
    (hmem : hashOfDoc t ∈ db.map Prod.fst) :
    (add_transaction db t).2 = "skipped" ∨ (add_transaction db t).2 = "updated" := by
  simp only [add_transaction]
  cases hl : lookupStore db (hashOfDoc t) with
  | some e => exact (enrichStatus_mem e t).symm.imp (fun h => h) (fun h => h)
  | none =>
    exact absurd hl (by
      intro hnone
      exact absurd hmem ((lookupStore_eq_none_iff db (hashOfDoc t)).mp hnone))

theorem importRows_no_added_of_covered (rows : List TxDoc) (db : List (String × TxDoc))
    (hcov : ∀ r ∈ rows, hashOfDoc r ∈ db.map Prod.fst) :
    ∀ s ∈ (importRows db rows).2, s = "skipped" ∨ s = "updated" := by
  induction rows generalizing db with
  | nil => intro s hs; cases hs
  | cons r rs ih =>
    intro s hs
    simp only [importRows] at hs
    rcases List.mem_cons.mp hs with rfl | hs
    · exact add_transaction_status_of_mem db r (hcov r (by simp))
    · exact ih (add_transaction db r).1
        (fun r' hr' => keys_add_transaction_super db r _ (hcov r' (by simp [hr'])))
        s hs

/-- C3 (amended): when the document's rows have pairwise-distinct
identity hashes and none is already stored, the first import reports
`added` for every row; and for every starting store and document, a
second import of the same document reports only `skipped` or
`updated`, never `added`, because every row's hash is present after
the first import. -/
theorem C3_idempotent_import (db : List (String × TxDoc)) (rows : List TxDoc)
    (hdist : rows.Pairwise (fun r s => hashOfDoc r ≠ hashOfDoc s))
    (hfresh : ∀ r ∈ rows, hashOfDoc r ∉ db.map Prod.fst) :
    (importRows db rows).2 = rows.map (fun _ => "added")
  ∧ ∀ (db0 : List (String × TxDoc)) (rows0 : List TxDoc),
      ∀ s ∈ (importRows (importRows db0 rows0).1 rows0).2, s = "skipped" ∨ s = "updated" := by
  constructor
  · induction rows generalizing db with
    | nil => rfl
    | cons r rs ih =>
      have hnone : lookupStore db (hashOfDoc r) = none :=
        (lookupStore_eq_none_iff db (hashOfDoc r)).mpr (hfresh r (by simp))
      have hadd : add_transaction db r = (db ++ [(hashOfDoc r, storedOfNew r)], "added") := by
        simp [add_transaction, hnone]
      simp only [importRows, hadd, List.map_cons]
      refine congrArg (List.cons "added") ?_
      refine ih _ hdist.tail ?_
      intro r' hr' hmem'
      rw [List.map_append] at hmem'
      rcases List.mem_append.mp hmem' with hmem | hx
      · exact hfresh r' (List.mem_cons_of_mem r hr') hmem
      · simp only [List.map_cons, List.map_nil, List.mem_singleton] at hx
        exact (List.rel_of_pairwise_cons hdist hr') hx.symm
  · intro db0 rows0
    exact importRows_no_added_of_covered rows0 _ (keys_importRows_cover rows0 db0)

/-- Counterexample to C3 as stated: a document whose two rows are
identical does not report `added` for each row on first import into an
empty store — the second row hits the hash just inserted by the first
and reports `skipped`. -/
theorem C3_first_import_counterexample :
    (importRows [] [rowShop, rowShop]).2 = ["added", "skipped"] ∧
    (importRows [] [rowShop, rowShop]).2 ≠ ["added", "added"] := by
  constructor <;> with_unfolding_all decide

/-- Witness for C3's amended first part on a two-row document with
distinct hashes, imported into the empty store. -/
theorem C3_idempotent_import_witness :
    (importRows [] [rowShopA, rowShopB]).2 =
      List.map (fun _ => "added") [rowShopA, rowShopB] :=
  (C3_idempotent_import [] [rowShopA, rowShopB]
    (by with_unfolding_all decide) (by simp)).1

/-! ## Claim C9: clean_amount is total -/
/-- C9: `clean_amount` strips currency markers, separators and stray
quotes and parses the residue; it returns `0.0` for a missing cell,
for pure-noise input, and for any residual parse failure — it is a
total function with the claimed concrete values
`clean_amount('1,200.50 ₪') = 1200.50` and `clean_amount('ש"ח') =
0.0`. -/
theorem C9_clean_amount_total :
    clean_amount (some "1,200.50 ₪") = 1200.50
  ∧ clean_amount (some "ש\"ח") = 0
  ∧ clean_amount none = 0
  ∧ (∀ v : String, cleanAmountResidual v = [] → clean_amount (some v) = 0)
  ∧ (∀ v : String, parseFloatResidual (cleanAmountResidual v) = none →
      clean_amount (some v) = 0) := by
  refine ⟨by with_unfolding_all decide, by with_unfolding_all decide, rfl, ?_, ?_⟩
  · intro v hv
    simp only [clean_amount, hv]
    split_ifs <;> simp_all
  · intro v hv
    simp only [clean_amount, hv]
    split_ifs <;> simp_all

/-- Witness for C9's conditional parts: `"--"` survives the character
filter but fails the float parse, and the parse failure yields 0. -/
theorem C9_clean_amount_total_witness :
    clean_amount (some "--") = 0 :=
  C9_clean_amount_total.2.2.2.2 "--" (by with_unfolding_all decide)

/-- Membership characterization of the pre-insert check's result: a
match is exactly an in-window stored transaction meeting the
threshold.  Note that `not_duplicate_of` plays no role. -/
theorem near_duplicates_mem_iff (cand : Tx) (thr : ℚ) (db : List Tx) (d : String)
    (dt : YMD) (hd : cand.date = some d) (hparse : parseIsoYMD d.data = some dt)
    (hne : d ≠ "") (m : NearMatch) :
    m ∈ check_for_near_duplicates cand thr db ↔
      ∃ t, (t ∈ db ∧ withinWindow dt t = true) ∧
        ((if thr ≤ (calculate_duplicate_confidence cand t).1 then
          some (⟨t, (calculate_duplicate_confidence cand t).1,
            (calculate_duplicate_confidence cand t).2⟩ : NearMatch) else none) = some m) := by
  rw [show check_for_near_duplicates cand thr db =
      ((get_transactions_by_range (formatYMD (addDays dt (-3))) (formatYMD (addDays dt 3))
        db).filterMap (fun existing =>
          if thr ≤ (calculate_duplicate_confidence cand existing).1 then
            some ⟨existing, (calculate_duplicate_confidence cand existing).1,
              (calculate_duplicate_confidence cand existing).2⟩ else none)).mergeSort
        (fun x y => y.confidence ≤ x.confidence) from by
    simp [check_for_near_duplicates, hd, hne, hparse]]
  rw [List.Perm.mem_iff (List.mergeSort_perm _ _)]
  simp only [List.mem_filterMap, get_transactions_by_range, List.mem_filter]
  constructor
  · rintro ⟨t, ⟨ht, hw⟩, hf⟩
    exact ⟨t, ⟨ht, by simpa [withinWindow] using hw⟩, hf⟩
  · rintro ⟨t, ⟨ht, hw⟩, hf⟩
    exact ⟨t, ⟨ht, by simpa [withinWindow] using hw⟩, hf⟩

/-- C7: `check_for_near_duplicates` returns `[]` for a missing or
unparseable candidate date; every reported match is a stored
transaction dated within the ±3-day window whose confidence meets the
threshold (0.75 in the upload flow), carrying exactly that
confidence; every stored transaction in the window meeting the
threshold is reported; and the result is sorted by descending
confidence. -/
theorem C7_near_duplicate_window :
    (∀ (cand : Tx) (thr : ℚ) (db : List Tx),
      cand.date = none → check_for_near_duplicates cand thr db = [])
  ∧ (∀ (cand : Tx) (thr : ℚ) (db : List Tx) (d : String),
      cand.date = some d → parseIsoYMD d.data = none →
      check_for_near_duplicates cand thr db = [])
  ∧ (∀ (cand : Tx) (thr : ℚ) (db : List Tx) (d : String) (dt : YMD),
      cand.date = some d → parseIsoYMD d.data = some dt →
      ∀ m ∈ check_for_near_duplicates cand thr db,
        m.existing ∈ db ∧ withinWindow dt m.existing = true ∧ thr ≤ m.confidence ∧
        m.confidence = (calculate_duplicate_confidence cand m.existing).1)
  ∧ (∀ (cand : Tx) (thr : ℚ) (db : List Tx) (d : String) (dt : YMD),
      cand.date = some d → parseIsoYMD d.data = some dt →
      ∀ t ∈ db, withinWindow dt t = true →
        thr ≤ (calculate_duplicate_confidence cand t).1 →
        ∃ m ∈ check_for_near_duplicates cand thr db, m.existing = t)
  ∧ (∀ (cand : Tx) (thr : ℚ) (db : List Tx),
      (check_for_near_duplicates cand thr db).Pairwise
        (fun x y => y.confidence ≤ x.confidence)) := by
  have hmem : ∀ (cand : Tx) (thr : ℚ) (db : List Tx) (d : String) (dt : YMD),
      cand.date = some d → parseIsoYMD d.data = some dt → d ≠ "" →
      ∀ m, m ∈ check_for_near_duplicates cand thr db ↔
        ∃ t, (t ∈ db ∧ withinWindow dt t = true) ∧
          ((if thr ≤ (calculate_duplicate_confidence cand t).1 then
            some (⟨t, (calculate_duplicate_confidence cand t).1,
              (calculate_duplicate_confidence cand t).2⟩ : NearMatch) else none) = some m) :=
    fun cand thr db d dt hd hparse hne m =>
      near_duplicates_mem_iff cand thr db d dt hd hparse hne m
  refine ⟨?_, ?_, ?_, ?_, ?_⟩
  · intro cand thr db hd
    simp [check_for_near_duplicates, hd]
  · intro cand thr db d hd hparse
    by_cases hne : d = "" <;> simp [check_for_near_duplicates, hd, hne, hparse]
  · intro cand thr db d dt hd hparse m hm
    have hne : d ≠ "" := by
      rintro rfl
      simp [parseIsoYMD, parseYear4Field] at hparse
    obtain ⟨t, ⟨ht, hw⟩, hf⟩ := (hmem cand thr db d dt hd hparse hne m).mp hm
    by_cases hthr : thr ≤ (calculate_duplicate_confidence cand t).1
    · rw [if_pos hthr] at hf
      obtain rfl := Option.some_injective _ hf
      exact ⟨ht, hw, hthr, rfl⟩
    · rw [if_neg hthr] at hf
      cases hf
  · intro cand thr db d dt hd hparse t ht hw hthr
    have hne : d ≠ "" := by
      rintro rfl
      simp [parseIsoYMD, parseYear4Field] at hparse
    refine ⟨⟨t, (calculate_duplicate_confidence cand t).1,
      (calculate_duplicate_confidence cand t).2⟩, ?_, rfl⟩
    exact (hmem cand thr db d dt hd hparse hne _).mpr ⟨t, ⟨ht, hw⟩, by rw [if_pos hthr]⟩
  · intro cand thr db
    rcases hd : cand.date with _ | d
    · simp [check_for_near_duplicates, hd]
    · by_cases hne : d = ""
      · simp [check_for_near_duplicates, hd, hne]
      · rcases hparse : parseIsoYMD d.data with _ | dt
        · simp [check_for_near_duplicates, hd, hne, hparse]
        · rw [show check_for_near_duplicates cand thr db =
              ((get_transactions_by_range (formatYMD (addDays dt (-3)))
                (formatYMD (addDays dt 3)) db).filterMap (fun existing =>
                  if thr ≤ (calculate_duplicate_confidence cand existing).1 then
                    some ⟨existing, (calculate_duplicate_confidence cand existing).1,
                      (calculate_duplicate_confidence cand existing).2⟩ else none)).mergeSort
                (fun x y => y.confidence ≤ x.confidence) from by
            simp [check_for_near_duplicates, hd, hne, hparse]]
          have := @List.sorted_mergeSort NearMatch
            (fun (x y : NearMatch) => decide (y.confidence ≤ x.confidence))
            (fun a b c hab hbc => by
              simp only [decide_eq_true_eq] at hab hbc ⊢
              exact le_trans hbc hab)
            (fun a b => by
              simp only [Bool.or_eq_true, decide_eq_true_eq]
              exact le_total b.confidence a.confidence)
            ((get_transactions_by_range (formatYMD (addDays dt (-3)))
              (formatYMD (addDays dt 3)) db).filterMap (fun existing =>
                if thr ≤ (calculate_duplicate_confidence cand existing).1 then
                  some ⟨existing, (calculate_duplicate_confidence cand existing).1,
                    (calculate_duplicate_confidence cand existing).2⟩ else none))
          exact this.imp (fun h => of_decide_eq_true h)

/-- Witness for C7 at `threshold = 0.75` with one in-window stored
transaction: the match is reported with its confidence. -/
theorem C7_near_duplicate_window_witness :
    ∃ m ∈ check_for_near_duplicates
      ⟨"", some "2025-05-01", -100, "supermarket", "", "", none, []⟩ (75/100)
      [⟨"s1", some "2025-05-01", -100, "supermarket tlv", "", "", none, []⟩],
      m.existing = ⟨"s1", some "2025-05-01", -100, "supermarket tlv", "", "", none, []⟩ :=
  C7_near_duplicate_window.2.2.2.1
    ⟨"", some "2025-05-01", -100, "supermarket", "", "", none, []⟩ (75/100)
    [⟨"s1", some "2025-05-01", -100, "supermarket tlv", "", "", none, []⟩]
    "2025-05-01" ⟨2025, 5, 1⟩ rfl (by decide)
    ⟨"s1", some "2025-05-01", -100, "supermarket tlv", "", "", none, []⟩ (by simp)
    (by with_unfolding_all decide) (by with_unfolding_all decide)

/-! ## Claim C8: the Isracard section state machine -/
theorem isracardStep_pending (patterns : List (String × String)) (ds : String)
    (st : IsraState) (row : List String) (hsec : st.sec = .pendingSec)
    (hnv : isracardValidMarker row = false) :
    (isracardStep patterns ds st row).sec = .pendingSec ∧
    (isracardStep patterns ds st row).txs = st.txs := by
  unfold isracardStep
  simp only [hnv, Bool.false_eq_true, if_false]
  split_ifs <;> simp_all

/-- While the machine is in PENDING, the column map is irrelevant: the
section can only be left through a valid-section marker, which resets
it.  Hence two PENDING states with the same emitted transactions stay
in lock-step on any row list. -/
theorem isracardRun_pending_agree (patterns : List (String × String)) (ds : String) :
    ∀ (rows : List (List String)) (st1 st2 : IsraState),
      st1.sec = .pendingSec → st2.sec = .pendingSec → st1.txs = st2.txs →
      (isracardRun patterns ds st1 rows).txs = (isracardRun patterns ds st2 rows).txs := by
  intro rows
  induction rows with
  | nil => intro st1 st2 h1 h2 h3; simpa [isracardRun] using h3
  | cons r rs ih =>
    intro st1 st2 h1 h2 h3
    by_cases hp : isracardPendingMarker r = true
    · have e1 : isracardStep patterns ds st1 r = ⟨.pendingSec, [], st1.txs⟩ := by
        simp [isracardStep, hp]
      have e2 : isracardStep patterns ds st2 r = ⟨.pendingSec, [], st2.txs⟩ := by
        simp [isracardStep, hp]
      simp only [isracardRun, e1, e2, h3]
    · by_cases hv : isracardValidMarker r = true
      · have e1 : isracardStep patterns ds st1 r = ⟨.validSec, [], st1.txs⟩ := by
          simp [isracardStep, hp, hv]
        have e2 : isracardStep patterns ds st2 r = ⟨.validSec, [], st2.txs⟩ := by
          simp [isracardStep, hp, hv]
        simp only [isracardRun, e1, e2, h3]
      · obtain ⟨hs1, ht1⟩ := isracardStep_pending patterns ds st1 r h1 (by simpa using hv)
        obtain ⟨hs2, ht2⟩ := isracardStep_pending patterns ds st2 r h2 (by simpa using hv)
        simp only [isracardRun]
        exact ih _ _ hs1 hs2 (by rw [ht1, ht2, h3])

theorem isracardRun_append (patterns : List (String × String)) (ds : String)
    (l1 l2 : List (List String)) (st : IsraState) :
    isracardRun patterns ds st (l1 ++ l2) =
    isracardRun patterns ds (isracardRun patterns ds st l1) l2 := by
  induction l1 generalizing st with
  | nil => rfl
  | cons r rs ih => simp [isracardRun, ih]

/-- C8 (amended): any row that is not a valid-section marker,
encountered while the machine is in the PENDING section, contributes
nothing — deleting it changes no emitted transaction, for every
document and starting state; in particular the claim's scenario
yields exactly its 2 cleared rows provided a header row follows the
cleared-transactions marker (section markers reset the column map, so
without a fresh header the cleared rows are skipped too). -/
theorem C8_pending_rows_discarded :
    (∀ (patterns : List (String × String)) (ds : String) (st0 : IsraState)
       (rows1 : List (List String)) (r : List String) (rows2 : List (List String)),
      (isracardRun patterns ds st0 rows1).sec = .pendingSec →
      isracardValidMarker r = false →
      (isracardRun patterns ds st0 (rows1 ++ r :: rows2)).txs =
        (isracardRun patterns ds st0 (rows1 ++ rows2)).txs)
  ∧ (∀ (patterns : List (String × String)) (ds content : String)
       (rows1 : List (List String)) (r : List String) (rows2 : List (List String)),
      (isracardRun patterns (isracardOwnerDefault patterns ds content)
        ⟨.searchSec, [], []⟩ rows1).sec = .pendingSec →
      isracardValidMarker r = false →
      parseIsracard patterns ds content (rows1 ++ r :: rows2) =
        parseIsracard patterns ds content (rows1 ++ rows2))
  ∧ (parseIsracard [] "Joint" ""
      [hdrRow, pendRow, dataRow1, dataRow2, dataRow3, validRow, hdrRow, dataRow4,
       dataRow5]).length = 2 := by
  have hmain : ∀ (patterns : List (String × String)) (ds : String) (st0 : IsraState)
      (rows1 : List (List String)) (r : List String) (rows2 : List (List String)),
      (isracardRun patterns ds st0 rows1).sec = .pendingSec →
      isracardValidMarker r = false →
      (isracardRun patterns ds st0 (rows1 ++ r :: rows2)).txs =
        (isracardRun patterns ds st0 (rows1 ++ rows2)).txs := by
    intro patterns ds st0 rows1 r rows2 hsec hnv
    rw [isracardRun_append, isracardRun_append]
    show (isracardRun patterns ds
      (isracardStep patterns ds (isracardRun patterns ds st0 rows1) r) rows2).txs = _
    obtain ⟨hs, ht⟩ := isracardStep_pending patterns ds _ r hsec hnv
    exact isracardRun_pending_agree patterns ds rows2 _ _ hs hsec ht
  refine ⟨hmain, ?_, by with_unfolding_all decide⟩
  intro patterns ds content rows1 r rows2 hsec hnv
  exact hmain patterns (isracardOwnerDefault patterns ds content) _ rows1 r rows2 hsec hnv

/-- Counterexample to C8's scenario as stated: the document consisting
of a pending marker, 3 data rows, a cleared marker and 2 data rows
yields 0 parsed transactions, not 2 — even with a header row at the
top — because the markers reset the header column map and no header
follows the cleared marker. -/
theorem C8_scenario_counterexample :
    (parseIsracard [] "Joint" ""
      [pendRow, dataRow1, dataRow2, dataRow3, validRow, dataRow4, dataRow5]).length = 0
  ∧ (parseIsracard [] "Joint" ""
      [hdrRow, pendRow, dataRow1, dataRow2, dataRow3, validRow, dataRow4,
       dataRow5]).length = 0
  ∧ (0 : ℕ) ≠ 2 := by
  refine ⟨by with_unfolding_all decide, by with_unfolding_all decide, by decide⟩

/-- Witness for C8's universal part: deleting the first pending data
row from the amended scenario document leaves the parse unchanged. -/
theorem C8_pending_rows_discarded_witness :
    parseIsracard [] "Joint" ""
      ([hdrRow, pendRow] ++ dataRow1 :: [dataRow2, dataRow3, validRow, hdrRow, dataRow4,
        dataRow5]) =
    parseIsracard [] "Joint" ""
      ([hdrRow, pendRow] ++ [dataRow2, dataRow3, validRow, hdrRow, dataRow4, dataRow5]) :=
  C8_pending_rows_discarded.2.1 [] "Joint" "" [hdrRow, pendRow] dataRow1
    [dataRow2, dataRow3, validRow, hdrRow, dataRow4, dataRow5]
    (by with_unfolding_all decide) (by with_unfolding_all decide)

theorem updateGroup_mem (t u : Tx) (c : ℚ) (r : String) (pg : DupGroup) :
    pg.transactions ⊆ (updateGroup t u c r pg).transactions ∧
    t ∈ (updateGroup t u c r pg).transactions ∧
    u ∈ (updateGroup t u c r pg).transactions := by
  simp only [updateGroup]
  split_ifs <;>
    refine ⟨?_, ?_, ?_⟩ <;>
    simp_all [List.contains, List.elem_iff, List.subset_def, List.mem_append]

theorem insertPair_super (t u : Tx) (c : ℚ) (r : String) :
    ∀ (acc : List DupGroup) (g : DupGroup), g ∈ acc →
      ∃ g' ∈ insertPair t u c r acc, g.transactions ⊆ g'.transactions := by
  intro acc
  induction acc with
  | nil => intro g hg; cases hg
  | cons pg rest ih =>
    intro g hg
    simp only [insertPair]
    split_ifs with h1
    · rcases List.mem_cons.mp hg with rfl | hg
      · exact ⟨updateGroup t u c r g, by simp, (updateGroup_mem t u c r g).1⟩
      · exact ⟨g, by simp [hg], List.Subset.refl _⟩
    · rcases List.mem_cons.mp hg with rfl | hg
      · exact ⟨g, by simp, List.Subset.refl _⟩
      · obtain ⟨g', hg', hsub⟩ := ih g hg
        exact ⟨g', by simp [hg'], hsub⟩

theorem insertPair_creates (t u : Tx) (c : ℚ) (r : String) :
    ∀ acc : List DupGroup, inSameGroup (insertPair t u c r acc) t u := by
  intro acc
  induction acc with
  | nil => exact ⟨⟨[t, u], c, r⟩, by simp [insertPair], by simp, by simp⟩
  | cons pg rest ih =>
    simp only [insertPair]
    split_ifs with h1
    · exact ⟨updateGroup t u c r pg, by simp, (updateGroup_mem t u c r pg).2.1,
        (updateGroup_mem t u c r pg).2.2⟩
    · obtain ⟨g, hg, hmem⟩ := ih
      exact ⟨g, by simp [hg], hmem⟩

theorem inSameGroup_insertPair_mono (t u a b : Tx) (c : ℚ) (r : String)
    (acc : List DupGroup) (h : inSameGroup acc a b) :
    inSameGroup (insertPair t u c r acc) a b := by
  obtain ⟨g, hg, ha, hb⟩ := h
  obtain ⟨g', hg', hsub⟩ := insertPair_super t u c r acc g hg
  exact ⟨g', hg', hsub ha, hsub hb⟩

theorem inSameGroup_handlePair_mono (t u a b : Tx) (acc : List DupGroup)
    (h : inSameGroup acc a b) : inSameGroup (handlePair t u acc) a b := by
  simp only [handlePair]
  split_ifs <;> first
    | exact h
    | exact inSameGroup_insertPair_mono t u a b _ _ acc h

theorem inSameGroup_processOne_mono (t a b : Tx) :
    ∀ (us : List Tx) (acc : List DupGroup), inSameGroup acc a b →
      inSameGroup (processOne t us acc) a b := by
  intro us
  induction us with
  | nil => intro acc h; exact h
  | cons u rest ih =>
    intro acc h
    exact ih _ (inSameGroup_handlePair_mono t u a b acc h)

theorem inSameGroup_processGroup_mono (a b : Tx) :
    ∀ (ts : List Tx) (acc : List DupGroup), inSameGroup acc a b →
      inSameGroup (processGroup ts acc) a b := by
  intro ts
  induction ts with
  | nil => intro acc h; exact h
  | cons t rest ih =>
    intro acc h
    exact ih _ (inSameGroup_processOne_mono t a b rest acc h)

theorem inSameGroup_processBuckets_mono (a b : Tx) :
    ∀ (buckets : List ((Option String × ℚ) × List Tx)) (acc : List DupGroup),
      inSameGroup acc a b → inSameGroup (processBuckets buckets acc) a b := by
  intro buckets
  induction buckets with
  | nil => intro acc h; exact h
  | cons kg rest ih =>
    intro acc h
    simp only [processBuckets]
    split_ifs with hlen
    · exact ih _ h
    · exact ih _ (inSameGroup_processGroup_mono a b kg.2 acc h)

theorem handlePair_creates (t u : Tx) (acc : List DupGroup)
    (hm : markedPair t u = false)
    (hc : 3/5 ≤ (calculate_duplicate_confidence t u).1) :
    inSameGroup (handlePair t u acc) t u := by
  unfold handlePair
  rw [if_neg (by simp [hm]), if_pos hc]
  exact insertPair_creates t u _ _ acc

theorem processOne_creates (t u : Tx) :
    ∀ (us : List Tx) (acc : List DupGroup), u ∈ us → markedPair t u = false →
      3/5 ≤ (calculate_duplicate_confidence t u).1 →
      inSameGroup (processOne t us acc) t u := by
  intro us
  induction us with
  | nil => intro acc h; cases h
  | cons v rest ih =>
    intro acc hu hm hc
    rcases List.mem_cons.mp hu with rfl | hu
    · exact inSameGroup_processOne_mono t t u rest _ (handlePair_creates t u acc hm hc)
    · exact ih _ hu hm hc

theorem processGroup_creates (a b : Tx) :
    ∀ (ts : List Tx) (acc : List DupGroup), [a, b].Sublist ts → markedPair a b = false →
      3/5 ≤ (calculate_duplicate_confidence a b).1 →
      inSameGroup (processGroup ts acc) a b := by
  intro ts
  induction ts with
  | nil => intro acc h; intro _ _; cases h
  | cons t rest ih =>
    intro acc hsub hm hc
    cases hsub with
    | cons _ h =>
      exact ih _ h hm hc
    | cons₂ _ h =>
      have hb : b ∈ rest := by
        have := h.length_le
        cases rest with
        | nil => simp at this
        | cons x xs => exact (List.singleton_sublist.mp h)
      exact inSameGroup_processGroup_mono a b rest _
        (processOne_creates a b rest acc hb hm hc)

theorem processBuckets_creates (a b : Tx) :
    ∀ (buckets : List ((Option String × ℚ) × List Tx)) (acc : List DupGroup)
      (k : Option String × ℚ) (g : List Tx), (k, g) ∈ buckets → [a, b].Sublist g →
      markedPair a b = false → 3/5 ≤ (calculate_duplicate_confidence a b).1 →
      inSameGroup (processBuckets buckets acc) a b := by
  intro buckets
  induction buckets with
  | nil => intro acc k g h; cases h
  | cons kg rest ih =>
    intro acc k g hmem hsub hm hc
    rcases List.mem_cons.mp hmem with heq | hmem
    · simp only [processBuckets]
      have hkg : kg.2 = g := (congrArg Prod.snd heq).symm
      have hglen : ¬kg.2.length < 2 := by
        have h2 : (2 : ℕ) ≤ g.length := by simpa using hsub.length_le
        rw [hkg]
        omega
      rw [if_neg hglen, hkg]
      exact inSameGroup_processBuckets_mono a b rest _
        (processGroup_creates a b g acc hsub hm hc)
    · simp only [processBuckets]
      split_ifs with hlen
      · exact ih _ k g hmem hsub hm hc
      · exact ih _ k g hmem hsub hm hc

theorem insertGrouped_spec :
    ∀ (acc : List ((Option String × ℚ) × List Tx)) (processed : List Tx) (t : Tx),
      (∀ p ∈ acc, p.2 = processed.filter (fun x => txKey x = p.1)) →
      (acc.map Prod.fst).Nodup →
      (txKey t ∉ acc.map Prod.fst → processed.filter (fun x => txKey x = txKey t) = []) →
      (∀ q ∈ insertGrouped acc t,
        q.2 = (processed ++ [t]).filter (fun x => txKey x = q.1)) ∧
      ((insertGrouped acc t).map Prod.fst =
        if txKey t ∈ acc.map Prod.fst then acc.map Prod.fst
        else acc.map Prod.fst ++ [txKey t]) := by
  intro acc
  induction acc with
  | nil =>
    intro processed t hfil hnd hmiss
    constructor
    · intro q hq
      rcases List.mem_cons.mp hq with rfl | hq
      · simp [List.filter_append, hmiss (by simp)]
      · cases hq
    · simp [insertGrouped]
  | cons p rest ih =>
    obtain ⟨k0, g0⟩ := p
    intro processed t hfil hnd hmiss
    by_cases hk : k0 = txKey t
    · constructor
      · intro q hq
        simp only [insertGrouped, if_pos hk] at hq
        rcases List.mem_cons.mp hq with rfl | hq
        · have hp := hfil (k0, g0) (by simp)
          dsimp only at hp ⊢
          rw [List.filter_append, ← hp, hk]
          simp
        · have hq2 := hfil q (by simp [hq])
          have hqk : q.1 ≠ txKey t := by
            have hkeys := List.nodup_cons.mp hnd
            intro hcontra
            refine hkeys.1 ?_
            dsimp only
            rw [hk, ← hcontra]
            exact List.mem_map_of_mem Prod.fst hq
          have hne : ¬ txKey t = q.1 := fun h => hqk h.symm
          rw [List.filter_append, ← hq2]
          simp [hne]
      · simp only [insertGrouped, if_pos hk, List.map_cons]
        rw [if_pos (by simp [← hk])]
    · have ih' := ih processed t (fun q hq => hfil q (by simp [hq]))
        (List.nodup_cons.mp hnd).2
        (fun hmem => hmiss (by
          simp only [List.map_cons, List.mem_cons, not_or]
          exact ⟨fun h => hk h.symm, hmem⟩))
      constructor
      · intro q hq
        simp only [insertGrouped, if_neg hk] at hq
        rcases List.mem_cons.mp hq with rfl | hq
        · have hp := hfil (k0, g0) (by simp)
          dsimp only at hp ⊢
          have hne : ¬ txKey t = k0 := fun h => hk h.symm
          rw [List.filter_append, ← hp]
          simp [hne]
        · exact ih'.1 q hq
      · simp only [insertGrouped, if_neg hk, List.map_cons, ih'.2]
        by_cases hmem : txKey t ∈ rest.map Prod.fst
        · rw [if_pos hmem, if_pos (by simp [hmem])]
        · rw [if_neg hmem, if_neg (by
            simp only [List.map_cons, List.mem_cons, not_or]
            exact ⟨fun h => hk h.symm, hmem⟩)]
          simp

theorem buildGrouped_fold_inv (l : List Tx) :
    ∀ (processed : List Tx) (acc : List ((Option String × ℚ) × List Tx)),
      groupedInv processed acc →
      groupedInv (processed ++ l) (l.foldl insertGrouped acc) := by
  induction l with
  | nil => intro processed acc h; simpa using h
  | cons t ts ih =>
    intro processed acc h
    obtain ⟨hfil, hnd, hcov⟩ := h
    have hmiss : txKey t ∉ acc.map Prod.fst →
        processed.filter (fun x => txKey x = txKey t) = [] := by
      intro hmem
      rw [List.filter_eq_nil_iff]
      intro x hx hpx
      refine hmem ?_
      have hxk : txKey x = txKey t := of_decide_eq_true hpx
      rw [← hxk]
      exact hcov x hx
    obtain ⟨hfil', hkeys'⟩ := insertGrouped_spec acc processed t hfil hnd hmiss
    have hstep : groupedInv (processed ++ [t]) (insertGrouped acc t) := by
      refine ⟨hfil', ?_, ?_⟩
      · rw [hkeys']
        split_ifs with hmem
        · exact hnd
        · refine List.Nodup.append hnd (List.nodup_singleton _) ?_
          intro x hx hx'
          have hxt : x = txKey t := by simpa using hx'
          exact hmem (hxt ▸ hx)
      · intro x hx
        rw [hkeys']
        rcases List.mem_append.mp hx with hx | hx
        · have hxc := hcov x hx
          split_ifs <;> simp [hxc]
        · have hxt : x = t := by simpa using hx
          subst hxt
          split_ifs with hmem <;> simp [hmem]
    have hrec := ih (processed ++ [t]) (insertGrouped acc t) hstep
    simpa [List.append_assoc] using hrec

theorem buildGrouped_spec (db : List Tx) : groupedInv db (buildGrouped db) := by
  have h := buildGrouped_fold_inv db [] [] ⟨by simp, by simp, by simp⟩
  simpa [buildGrouped] using h

theorem bucket_member_key (db : List Tx) (k : Option String × ℚ) (g : List Tx)
    (h : (k, g) ∈ buildGrouped db) : ∀ t ∈ g, txKey t = k := by
  intro t ht
  have hfil := (buildGrouped_spec db).1 (k, g) h
  dsimp only at hfil
  rw [hfil] at ht
  exact of_decide_eq_true (List.mem_filter.mp ht).2

theorem bucket_exists (db : List Tx) (a : Tx) (ha : a ∈ db) :
    (txKey a, db.filter (fun x => txKey x = txKey a)) ∈ buildGrouped db := by
  have hcov := (buildGrouped_spec db).2.2 a ha
  obtain ⟨p, hp, hpk⟩ := List.mem_map.mp hcov
  obtain ⟨pk, pg⟩ := p
  dsimp only at hpk
  subst hpk
  have hfil := (buildGrouped_spec db).1 (txKey a, pg) hp
  dsimp only at hfil
  rw [hfil] at hp
  exact hp

theorem updateGroup_members (t u : Tx) (c : ℚ) (r : String) (pg : DupGroup) :
    ∀ x ∈ (updateGroup t u c r pg).transactions,
      x ∈ pg.transactions ∨ x = t ∨ x = u := by
  intro x hx
  simp only [updateGroup] at hx
  split_ifs at hx <;>
    simp_all [List.mem_append] <;>
    tauto

theorem updateGroup_keyed (t u : Tx) (c : ℚ) (r : String) (pg : DupGroup)
    (hk : txKey t = txKey u)
    (hpg : ∃ k, ∀ x ∈ pg.transactions, txKey x = k)
    (hrel : t ∈ pg.transactions ∨ u ∈ pg.transactions) :
    ∃ k, ∀ x ∈ (updateGroup t u c r pg).transactions, txKey x = k := by
  obtain ⟨kg, hkg⟩ := hpg
  have hkt : txKey t = kg := by
    rcases hrel with h | h
    · exact hkg t h
    · rw [hk]; exact hkg u h
  refine ⟨kg, fun x hx => ?_⟩
  rcases updateGroup_members t u c r pg x hx with h | rfl | rfl
  · exact hkg x h
  · exact hkt
  · rw [← hk]; exact hkt

theorem insertPair_keyed (t u : Tx) (c : ℚ) (r : String) (hk : txKey t = txKey u) :
    ∀ acc : List DupGroup, keyedGroups acc → keyedGroups (insertPair t u c r acc) := by
  intro acc
  induction acc with
  | nil =>
    intro _ g hg
    rcases List.mem_cons.mp hg with rfl | hg
    · refine ⟨txKey t, fun x hx => ?_⟩
      rcases List.mem_cons.mp hx with rfl | hx
      · rfl
      · rw [show x = u by simpa using hx, ← hk]
    · cases hg
  | cons pg rest ih =>
    intro hkeyed g hg
    simp only [insertPair] at hg
    split_ifs at hg with h1
    · rcases List.mem_cons.mp hg with rfl | hg
      · refine updateGroup_keyed t u c r pg hk (hkeyed pg (by simp)) ?_
        rcases Bool.or_eq_true _ _ |>.mp h1 with h | h
        · exact Or.inl (List.elem_iff.mp h)
        · exact Or.inr (List.elem_iff.mp h)
      · exact hkeyed g (by simp [hg])
    · rcases List.mem_cons.mp hg with rfl | hg
      · exact hkeyed g (by simp)
      · exact ih (fun g' hg' => hkeyed g' (by simp [hg'])) g hg

theorem handlePair_keyed (t u : Tx) (acc : List DupGroup) (hk : txKey t = txKey u)
    (h : keyedGroups acc) : keyedGroups (handlePair t u acc) := by
  simp only [handlePair]
  split_ifs <;> first
    | exact h
    | exact insertPair_keyed t u _ _ hk acc h

theorem processOne_keyed (t : Tx) :
    ∀ (us : List Tx) (acc : List DupGroup), (∀ u ∈ us, txKey u = txKey t) →
      keyedGroups acc → keyedGroups (processOne t us acc) := by
  intro us
  induction us with
  | nil => intro acc _ h; exact h
  | cons u rest ih =>
    intro acc hks h
    exact ih _ (fun v hv => hks v (by simp [hv]))
      (handlePair_keyed t u acc (hks u (by simp)).symm h)

theorem processGroup_keyed :
    ∀ (ts : List Tx) (acc : List DupGroup) (k : Option String × ℚ),
      (∀ x ∈ ts, txKey x = k) → keyedGroups acc → keyedGroups (processGroup ts acc) := by
  intro ts
  induction ts with
  | nil => intro acc _ _ h; exact h
  | cons t rest ih =>
    intro acc k hks h
    refine ih _ k (fun x hx => hks x (by simp [hx])) ?_
    refine processOne_keyed t rest acc (fun u hu => ?_) h
    rw [hks u (by simp [hu]), hks t (by simp)]

theorem processBuckets_keyed :
    ∀ (buckets : List ((Option String × ℚ) × List Tx)) (acc : List DupGroup),
      (∀ p ∈ buckets, ∀ x ∈ p.2, txKey x = p.1) → keyedGroups acc →
      keyedGroups (processBuckets buckets acc) := by
  intro buckets
  induction buckets with
  | nil => intro acc _ h; exact h
  | cons kg rest ih =>
    intro acc hpure h
    simp only [processBuckets]
    split_ifs with hlen
    · exact ih _ (fun p hp => hpure p (by simp [hp])) h
    · exact ih _ (fun p hp => hpure p (by simp [hp]))
        (processGroup_keyed kg.2 acc kg.1 (hpure kg (by simp)) h)

theorem find_potential_duplicates_keyed (db : List Tx) :
    keyedGroups (find_potential_duplicates db) := by
  intro g hg
  have hg' : g ∈ processBuckets (buildGrouped db) [] := by
    exact (List.Perm.mem_iff (List.mergeSort_perm _ _)).mp hg
  refine processBuckets_keyed (buildGrouped db) [] ?_ (fun g' hg' => by cases hg') g hg'
  intro p hp x hx
  obtain ⟨pk, pg⟩ := p
  exact bucket_member_key db pk pg hp x hx

/-- C5 (amended): the full scan compares only within
`(date, abs(amount))` buckets.  Every unmarked pair sharing a bucket
(such pairs always score ≥ 0.65 ≥ 0.6) ends in a common group; every
reported group is bucket-pure, so any two members of a reported group
score ≥ 0.6; a pair in different buckets is never reported together,
whatever its confidence; and the groups are sorted by descending
confidence. -/
theorem C5_full_scan_grouping :
    (∀ (db : List Tx) (a b : Tx), [a, b].Sublist db → txKey a = txKey b →
      markedPair a b = false → inSameGroup (find_potential_duplicates db) a b)
  ∧ (∀ (db : List Tx) (g : DupGroup), g ∈ find_potential_duplicates db →
      ∀ a ∈ g.transactions, ∀ b ∈ g.transactions,
        3/5 ≤ (calculate_duplicate_confidence a b).1)
  ∧ (∀ (db : List Tx) (a b : Tx), txKey a ≠ txKey b →
      ∀ g ∈ find_potential_duplicates db, ¬(a ∈ g.transactions ∧ b ∈ g.transactions))
  ∧ (∀ db : List Tx, (find_potential_duplicates db).Pairwise
      (fun x y => y.confidence ≤ x.confidence)) := by
  refine ⟨?_, ?_, ?_, ?_⟩
  · intro db a b hsub hkey hm
    have ha : a ∈ db := hsub.subset (by simp)
    have hconf : 3/5 ≤ (calculate_duplicate_confidence a b).1 :=
      le_trans (by norm_num) (confidence_ge_of_same_key a b hkey)
    have hbucket := bucket_exists db a ha
    have hsubf : [a, b].Sublist (db.filter (fun x => txKey x = txKey a)) := by
      have hf := hsub.filter (fun x => decide (txKey x = txKey a))
      have : List.filter (fun x => decide (txKey x = txKey a)) [a, b] = [a, b] := by
        simp [List.filter, ← hkey]
      rwa [this] at hf
    obtain ⟨g, hg, hab⟩ := processBuckets_creates a b (buildGrouped db) [] _ _
      hbucket hsubf hm hconf
    exact ⟨g, (List.Perm.mem_iff (List.mergeSort_perm _ _)).mpr hg, hab⟩
  · intro db g hg a hag b hbg
    obtain ⟨k, hk⟩ := find_potential_duplicates_keyed db g hg
    have : txKey a = txKey b := by rw [hk a hag, hk b hbg]
    exact le_trans (by norm_num) (confidence_ge_of_same_key a b this)
  · intro db a b hne g hg ⟨hag, hbg⟩
    obtain ⟨k, hk⟩ := find_potential_duplicates_keyed db g hg
    exact hne (by rw [hk a hag, hk b hbg])
  · intro db
    have := @List.sorted_mergeSort DupGroup
      (fun (x y : DupGroup) => decide (y.confidence ≤ x.confidence))
      (fun a b c hab hbc => by
        simp only [decide_eq_true_eq] at hab hbc ⊢
        exact le_trans hbc hab)
      (fun a b => by
        simp only [Bool.or_eq_true, decide_eq_true_eq]
        exact le_total b.confidence a.confidence)
      (processBuckets (buildGrouped db) [])
    exact this.imp (fun h => of_decide_eq_true h)

/-- Counterexample to C5 as stated: (i) a same-date pair with amounts
100 and 101 and identical descriptions scores 0.80 ≥ 0.6 yet is never
reported, because the scan only compares within `(date, abs(amount))`
buckets; (ii) transitive connections do not always end in one group:
with the pairs (u0,u1), (u0,u2), (u1,u3) marked, the unmarked
qualifying chain u0–u3–u2–u1 leaves u0 and u1 in different groups. -/
theorem C5_full_scan_counterexample :
    ((3/5 ≤ (calculate_duplicate_confidence txX1 txX2).1) ∧
      markedPair txX1 txX2 = false ∧
      find_potential_duplicates [txX1, txX2] = [])
  ∧ (markedPair txU0 txU3 = false ∧ markedPair txU3 txU2 = false ∧
      markedPair txU2 txU1 = false ∧
      inSameGroup (find_potential_duplicates [txU0, txU1, txU2, txU3]) txU0 txU3 ∧
      inSameGroup (find_potential_duplicates [txU0, txU1, txU2, txU3]) txU3 txU2 ∧
      inSameGroup (find_potential_duplicates [txU0, txU1, txU2, txU3]) txU2 txU1 ∧
      ¬ inSameGroup (find_potential_duplicates [txU0, txU1, txU2, txU3]) txU0 txU1) := by
  constructor
  · refine ⟨by with_unfolding_all decide, by decide, by with_unfolding_all decide⟩
  · refine ⟨by decide, by decide, by decide, ?_, ?_, ?_, ?_⟩ <;> with_unfolding_all decide

/-- Witness for C5's completeness part: an unmarked same-bucket pair
is reported in a common group. -/
theorem C5_full_scan_grouping_witness :
    inSameGroup (find_potential_duplicates [txY1, txY2]) txY1 txY2 :=
  C5_full_scan_grouping.1 [txY1, txY2] txY1 txY2 (List.Sublist.refl _) rfl rfl

theorem updateGroup_len (t u : Tx) (c : ℚ) (r : String) (pg : DupGroup) :
    pg.transactions.length ≤ (updateGroup t u c r pg).transactions.length := by
  simp only [updateGroup]
  split_ifs <;> simp

theorem updateGroup_two (t u : Tx) (c : ℚ) (r : String) (pg : DupGroup)
    (hlen : 2 ≤ pg.transactions.length) :
    ∀ a b, (updateGroup t u c r pg).transactions = [a, b] →
      (updateGroup t u c r pg).transactions = pg.transactions := by
  intro a b heq
  have h2 : (updateGroup t u c r pg).transactions.length = 2 := by rw [heq]; rfl
  simp only [updateGroup] at h2 ⊢
  split_ifs at h2 ⊢ <;> simp_all

theorem insertPair_wf (t u : Tx) (c : ℚ) (r : String) (hm : markedPair t u = false) :
    ∀ acc : List DupGroup, dupGroupsWellFormed acc →
      dupGroupsWellFormed (insertPair t u c r acc) := by
  intro acc
  induction acc with
  | nil =>
    intro _ g hg
    rcases List.mem_cons.mp hg with rfl | hg
    · refine ⟨by simp, fun a b hab => ?_⟩
      obtain ⟨rfl, rfl⟩ : t = a ∧ u = b := by
        have h1 := congrArg (fun l => l.getD 0 t) hab
        have h2 := congrArg (fun l => l.getD 1 t) hab
        simp at h1 h2
        exact ⟨h1, h2⟩
      exact hm
    · cases hg
  | cons pg rest ih =>
    intro hwf g hg
    simp only [insertPair] at hg
    split_ifs at hg with h1
    · rcases List.mem_cons.mp hg with rfl | hg
      · obtain ⟨hlen, htwo⟩ := hwf pg (by simp)
        refine ⟨le_trans hlen (updateGroup_len t u c r pg), fun a b hab => ?_⟩
        have heq := updateGroup_two t u c r pg hlen a b hab
        rw [heq] at hab
        exact htwo a b hab
      · exact hwf g (by simp [hg])
    · rcases List.mem_cons.mp hg with rfl | hg
      · exact hwf g (by simp)
      · exact ih (fun g' hg' => hwf g' (by simp [hg'])) g hg

theorem handlePair_wf (t u : Tx) (acc : List DupGroup)
    (h : dupGroupsWellFormed acc) : dupGroupsWellFormed (handlePair t u acc) := by
  simp only [handlePair]
  split_ifs with h1 h2
  · exact h
  · exact insertPair_wf t u _ _ (by simpa using h1) acc h
  · exact h

theorem processOne_wf (t : Tx) :
    ∀ (us : List Tx) (acc : List DupGroup), dupGroupsWellFormed acc →
      dupGroupsWellFormed (processOne t us acc) := by
  intro us
  induction us with
  | nil => intro acc h; exact h
  | cons u rest ih => intro acc h; exact ih _ (handlePair_wf t u acc h)

theorem processGroup_wf :
    ∀ (ts : List Tx) (acc : List DupGroup), dupGroupsWellFormed acc →
      dupGroupsWellFormed (processGroup ts acc) := by
  intro ts
  induction ts with
  | nil => intro acc h; exact h
  | cons t rest ih => intro acc h; exact ih _ (processOne_wf t rest acc h)

theorem processBuckets_wf :
    ∀ (buckets : List ((Option String × ℚ) × List Tx)) (acc : List DupGroup),
      dupGroupsWellFormed acc → dupGroupsWellFormed (processBuckets buckets acc) := by
  intro buckets
  induction buckets with
  | nil => intro acc h; exact h
  | cons kg rest ih =>
    intro acc h
    simp only [processBuckets]
    split_ifs with hlen
    · exact ih _ h
    · exact ih _ (processGroup_wf kg.2 acc h)

/-- C6 (amended): in the full scan a marked pair is never scored
directly — every reported group of exactly two transactions is an
unmarked pair — though transitive merging can still place a marked
pair in one larger group; and the pre-insert check consults
`not_duplicate_of` not at all: every stored transaction in the ±3-day
window whose confidence meets the threshold is returned as a match,
marked or not. -/
theorem C6_not_duplicate_exclusion :
    (∀ (db : List Tx) (g : DupGroup), g ∈ find_potential_duplicates db →
      ∀ a b, g.transactions = [a, b] → markedPair a b = false)
  ∧ (∀ (cand : Tx) (thr : ℚ) (db : List Tx) (d : String) (dt : YMD) (stored : Tx),
      cand.date = some d → parseIsoYMD d.data = some dt → stored ∈ db →
      withinWindow dt stored = true →
      thr ≤ (calculate_duplicate_confidence cand stored).1 →
      ∃ m ∈ check_for_near_duplicates cand thr db, m.existing = stored) := by
  constructor
  · intro db g hg a b hab
    have hg' : g ∈ processBuckets (buildGrouped db) [] :=
      (List.Perm.mem_iff (List.mergeSort_perm _ _)).mp hg
    exact (processBuckets_wf (buildGrouped db) [] (fun g' hg' => by cases hg') g hg').2
      a b hab
  · intro cand thr db d dt stored hd hparse hmem hw hthr
    have hne : d ≠ "" := by
      rintro rfl
      simp [parseIsoYMD, parseYear4Field] at hparse
    refine ⟨⟨stored, (calculate_duplicate_confidence cand stored).1,
      (calculate_duplicate_confidence cand stored).2⟩, ?_, rfl⟩
    exact (near_duplicates_mem_iff cand thr db d dt hd hparse hne _).mpr
      ⟨stored, ⟨hmem, hw⟩, by rw [if_pos hthr]⟩

/-- Counterexample to C6 as stated: (i) the pair (t0, t1) is marked
via `not_duplicate_of`, yet transitive merging through t2 places both
in one reported group; (ii) the stored transaction carrying the
candidate's identity hash in `not_duplicate_of` is still returned by
the pre-insert check. -/
theorem C6_not_duplicate_counterexample :
    (markedPair txT0 txT1 = true ∧
      inSameGroup (find_potential_duplicates [txT0, txT1, txT2]) txT0 txT1)
  ∧ (storedNear.not_duplicate_of =
      [generate_hash_id "2025-05-01" (-100) "supermarket" none] ∧
     ∃ m ∈ check_for_near_duplicates candNear (75/100) [storedNear],
       m.existing = storedNear) := by
  refine ⟨⟨by decide, by with_unfolding_all decide⟩, rfl, ?_⟩
  with_unfolding_all decide

/-- Witness for C6's parts: the two-element group reported for the
unmarked pair (y1, y2) is unmarked, via the group that the scan
actually emits. -/
theorem C6_not_duplicate_exclusion_witness :
    markedPair txY1 txY2 = false :=
  C6_not_duplicate_exclusion.1 [txY1, txY2]
    ⟨[txY1, txY2], 9/10, "same date; exact amount; desc 100%"⟩
    (by with_unfolding_all decide) txY1 txY2 rfl
